import Mathlib

/-!
# The `touch` command of gd-suite

A shallow embedding of `src/cmd/touch/touch.go`: the per-job executor `Touch`,
the path-decomposition loop of `commandDefinition.Run`, the job loop handed to
`cmd.Run`, and the retries `cmd.Run` makes of that loop.

Conventions of the embedding.

* Go `string` values are Lean `String`s; `len` is the UTF-8 byte size.
* An instant (`time.Time`) is an integer (`Time`).
* `time.Now`, `time.Parse` and `time.ParseInLocation` live in the standard
  library: they are fields of `Env`.  The clock is a sequence of readings, and
  the world counts how many readings have been taken.
* The storage backend (`fs.Fs`, `fs.Object`) is an interface: `Backend σ` gives
  its three operations over an arbitrary store state `σ`.  Every call the code
  makes through the interface is appended to the world's call log.
* A Go `error` is a value of `Error`; `nil` is `none` in `Option Error`.
* `cmd.Run` belongs to the rclone command framework.  Line 93 calls it with
  `Retry = true`, so a pass of the job loop that ends with an error may be
  followed by another pass over the whole job list: `cmdRun` is that loop, with
  the value of `--retries` and the errors that are retried as fields of `Env`.
-/

namespace GdSuite

/-! ## Data model -/

/-- An instant, the embedding of `time.Time`. -/
abbrev Time := Int

/-- Go error values met by the command.  `objectNotFound` and `notAFile` are the
sentinels `fs.ErrorObjectNotFound` and `fs.ErrorNotAFile`; `other` is any
other error value; `wrap cause msg` is `errors.Wrap(cause, msg)`. -/
inductive Error where
  | objectNotFound : Error
  | notAFile : Error
  | other (msg : String) : Error
  | wrap (cause : Error) (msg : String) : Error
  deriving DecidableEq, Repr

/-- The package-level flag variables (lines 18-23). -/
structure Flags where
  notCreateNewFile : Bool
  timeAsArgument : String
  localTime : Bool
  FirstOnly : Bool
  deriving DecidableEq, Repr

/-- The constant `defaultLayout`. -/
def defaultLayout : String := "060102"

/-- The constant `layoutDateWithTime`. -/
def layoutDateWithTime : String := "2006-01-02T15:04:05"

/-- The constant `layoutDateWithTimeNano`. -/
def layoutDateWithTimeNano : String := "2006-01-02T15:04:05.999999999"

/-- Go `len` on a string: the number of bytes. -/
def len (s : String) : Nat := s.utf8ByteSize

/-- A job of the run, `touchJob`: the container (the `fs.Fs` that
`cmd.NewFsDir` opens, named here by the remote string it was opened from) and
the name of the entry inside it. -/
structure touchJob where
  fs : String
  fileName : String
  deriving DecidableEq, Repr

/-- An `fs.Object` handle: the container it lives in and its remote name. -/
structure Object where
  fs : String
  remote : String
  deriving DecidableEq, Repr

/-- The value built by `object.NewStaticObjectInfo(remote, modTime, size,
storable, nil, fs)`. -/
structure StaticObjectInfo where
  remote : String
  modTime : Time
  size : Int
  storable : Bool
  fs : String
  deriving DecidableEq, Repr

/-- What `fsrc.NewObject` returns, the pair `(file, err)`: either an object and
a nil error, or a non-nil error together with a possibly nil object. -/
inductive Lookup where
  | found (file : Object) : Lookup
  | failed (file : Option Object) (err : Error) : Lookup
  deriving DecidableEq, Repr

/-- The storage interface used by `Touch`, over a store state `σ`.
`NewObject` only reads the store; `Put` and `SetModTime` return an optional
error and the store they leave behind.  `Put` takes the container, the bytes
read from the buffer and the object info. -/
structure Backend (σ : Type) where
  NewObject : σ → String → String → Lookup
  Put : σ → String → List Nat → StaticObjectInfo → Option Error × σ
  SetModTime : σ → Object → Time → Option Error × σ

/-- One call made through the storage interface. -/
inductive Call where
  | newObject (fs : String) (remote : String) : Call
  | put (fs : String) (content : List Nat) (src : StaticObjectInfo) : Call
  | setModTime (file : Object) (t : Time) : Call
  deriving DecidableEq, Repr

/-- The services outside the repository that the command reads.  Of the standard
library: the clock, as the sequence of values successive `time.Now()` calls
return, and the two parsers, taking the layout and the value.  Of the rclone
command framework: the value of the `--retries` flag (3 unless the user sets
it), and which errors `cmd.Run` retries after, namely those that are neither
fatal nor marked as not to be retried. -/
structure Env where
  now : Nat → Time
  parse : String → String → Except Error Time
  parseInLocal : String → String → Except Error Time
  retries : Nat
  retryable : Error → Bool

/-- The world a run acts on: the store, the number of clock readings taken so
far, and the log of storage calls in the order they were made. -/
structure World (σ : Type) where
  store : σ
  ticks : Nat
  calls : List Call

/-! ## `Touch` -/

/-- Lines 109-114: the layout chosen for a non-empty `timeAsArgument`. -/
def layoutFor (timeAsArgument : String) : String :=
  if len timeAsArgument = len layoutDateWithTime then layoutDateWithTime
  else if len timeAsArgument > len layoutDateWithTime then layoutDateWithTimeNano
  else defaultLayout

/-- Lines 115-120: the parser call, in the local zone when `localTime` is set
and in UTC otherwise, under the layout chosen for the override. -/
def parseOverride (flags : Flags) (env : Env) : Except Error Time :=
  if flags.localTime then env.parseInLocal (layoutFor flags.timeAsArgument) flags.timeAsArgument
  else env.parse (layoutFor flags.timeAsArgument) flags.timeAsArgument

/-- Lines 107-125: the value of `timeAtr` when the storage is first reached,
given the clock reading `now` taken at line 107, or the wrapped parse error. -/
def resolveTime (flags : Flags) (env : Env) (now : Time) : Except Error Time :=
  if flags.timeAsArgument ≠ "" then
    match parseOverride flags env with
    | .error err => .error (Error.wrap err "failed to parse date/time argument")
    | .ok timeAtrFromFlags => .ok timeAtrFromFlags
  else .ok now

/-- Lines 136-143: the test `err == fs.ErrorNotAFile && file != nil` on the
current value of `err`, the folder mod-time update it guards, and the final
`return nil`. -/
def touchFolder {σ : Type} (b : Backend σ) (file : Option Object) (err : Option Error)
    (timeAtr : Time) (w : World σ) : Option Error × World σ :=
  match err, file with
  | some Error.notAFile, some f =>
    let r := b.SetModTime w.store f timeAtr
    let w1 : World σ := { w with store := r.2, calls := w.calls ++ [Call.setModTime f timeAtr] }
    match r.1 with
    | some e => (some (Error.wrap e "touch: couldn't set mod time of folder"), w1)
    | none => (none, w1)
  | _, _ => (none, w)

/-- The function `Touch` (lines 106-150): the returned error and the world it
leaves. -/
def Touch {σ : Type} (flags : Flags) (env : Env) (b : Backend σ) (fsrc : String)
    (srcFileName : String) (w : World σ) : Option Error × World σ :=
  let now := env.now w.ticks
  let w0 : World σ := { w with ticks := w.ticks + 1 }
  match resolveTime flags env now with
  | .error e => (some e, w0)
  | .ok timeAtr =>
    let w1 : World σ := { w0 with calls := w0.calls ++ [Call.newObject fsrc srcFileName] }
    match b.NewObject w1.store fsrc srcFileName with
    | .failed file err =>
      if !flags.notCreateNewFile then
        let src : StaticObjectInfo := ⟨srcFileName, timeAtr, 0, true, fsrc⟩
        let r := b.Put w1.store fsrc [] src
        let w2 : World σ := { w1 with store := r.2, calls := w1.calls ++ [Call.put fsrc [] src] }
        match r.1 with
        | some e => (some e, w2)
        | none => touchFolder b file none timeAtr w2
      else touchFolder b file (some err) timeAtr w1
    | .found file =>
      let r := b.SetModTime w1.store file timeAtr
      let w2 : World σ := { w1 with store := r.2, calls := w1.calls ++ [Call.setModTime file timeAtr] }
      match r.1 with
      | some e => (some (Error.wrap e "touch: couldn't set mod time"), w2)
      | none => (none, w2)

/-- The closure handed to `cmd.Run` (lines 94-100), one pass over the job list:
the jobs in order, stopping at the first error. -/
def runJobs {σ : Type} (flags : Flags) (env : Env) (b : Backend σ) :
    List touchJob → World σ → Option Error × World σ
  | [], w => (none, w)
  | t :: rest, w =>
    match Touch flags env b t.fs t.fileName w with
    | (some err, w1) => (some err, w1)
    | (none, w1) => runJobs flags env b rest w1

/-! ## Path decomposition -/

/-- Go `strings.HasSuffix(path, "/")`. -/
def hasSlashSuffix (path : String) : Bool :=
  path.data.getLast? = some '/'

/-- Lines 72-75: drop one trailing `/` when there is one. -/
def stripPadding (path : String) : String :=
  if hasSlashSuffix path then ⟨path.data.dropLast⟩ else path

/-- The directory part of Go `path.Split`: the text up to and including the
last `/`, empty when there is no `/`. -/
def dirPart (p : List Char) : List Char :=
  (p.reverse.dropWhile (fun c => c != '/')).reverse

/-- The file part of Go `path.Split`: the text after the last `/`. -/
def filePart (p : List Char) : List Char :=
  (p.reverse.takeWhile (fun c => c != '/')).reverse

/-- Go `path.Split`. -/
def pathSplit (p : String) : String × String :=
  (⟨dirPart p.data⟩, ⟨filePart p.data⟩)

/-- The character class `[^\\/:]` of the remote-path pattern. -/
def isNameChar (c : Char) : Bool :=
  c != '\\' && c != '/' && c != ':'

/-- The character class `[\w_ -]` of a config name. -/
def isConfigChar (c : Char) : Bool :=
  c.isAlphanum || c = '_' || c = ' ' || c = '-'

/-- The tail `[^\\/:]*:(.*)$` of the remote-path pattern matched at the start
of `s`: the run of name characters and the text after the colon (`.` does not
match a line feed). -/
def matchNameColon (s : List Char) : Option (List Char × List Char) :=
  match s.dropWhile isNameChar with
  | [] => none
  | c :: rest =>
    if c = ':' ∧ rest.all (fun x => x != '\n') then some (s.takeWhile isNameChar, rest)
    else none

/-- The pattern `^(:?[^\\/:]*):(.*)$` that rclone's `fspath` matches a remote
path against: the two submatches, leftmost-first. -/
def urlMatcher (s : List Char) : Option (List Char × List Char) :=
  match s with
  | [] => none
  | c :: t =>
    if c = ':' then
      match matchNameColon t with
      | some (run, rest) => some (':' :: run, rest)
      | none => if t.all (fun x => x != '\n') then some ([], t) else none
    else matchNameColon (c :: t)

/-- The check `CheckRemoteName(configName + ":")`, pattern `^(:?[\w_ -]+):$`, on
a config name that holds no colon after its first character. -/
def validConfigName (configName : List Char) : Bool :=
  match configName with
  | [] => false
  | c :: t =>
    if c = ':' then !t.isEmpty && t.all isConfigChar
    else (c :: t).all isConfigChar

/-- The error value `errInvalidCharacters` of `fspath`. -/
def errInvalidCharacters : Error :=
  Error.other "config name contains invalid characters - may only contain 0-9, A-Z ,a-z ,_ , - and space "

/-- Modelled from the spec: the first half of the path splitter of section 6,
which is `fspath.Parse` of the rclone library; the command imports the library
and its source is not among the sources of this repository.  The model follows
the library on a platform whose separator is `/`: a path that matches the
remote-path pattern gives its config name, checked for validity, and the path
inside the remote; any other path is a local path with an empty config name.
(Library versions that reject the empty path with an error make the loop stop
on it all the same: here it is a fixed point of the split.) -/
def fspathParse (path : String) : Except Error (String × String) :=
  match urlMatcher path.data with
  | some (configName, fsPath) =>
    if validConfigName configName then .ok (⟨configName⟩, ⟨fsPath⟩) else .error errInvalidCharacters
  | none => .ok ("", path)

/-- Modelled from the spec: the path splitter `split(path)` of section 6, which
is `fspath.Split` of the rclone library (its source is not among the sources of
this repository).  The parent is the remote name with its colon followed by the
directory part of the path, the final separator included; the leaf is what
follows the last separator; parent and leaf concatenate to the path.  An empty
parent stands for the current directory. -/
def fspathSplit (remote : String) : Except Error (String × String) :=
  match fspathParse remote with
  | .error err => .error err
  | .ok (remoteName, remotePath) =>
    let remoteName := if remoteName ≠ "" then remoteName ++ ":" else remoteName
    let pl := pathSplit remotePath
    .ok (remoteName ++ pl.1, pl.2)

/-- The loop of lines 71-91, with the path splitter as a parameter and `toTouch`
as accumulator.  Each unit of fuel pays for one iteration; `none` means the
loop was still running when the fuel ran out.  `cmd.NewFsDir` is taken to
succeed: the container it opens is named by the remote string. -/
def decompose (split : String → Except Error (String × String)) (FirstOnly : Bool) :
    Nat → String → List touchJob → Option (List touchJob)
  | 0, _, _ => none
  | fuel + 1, path, toTouch =>
    let path := stripPadding path
    match split path with
    | .error _ => some toTouch
    | .ok (dstRemote, file) =>
      if dstRemote = path then some toTouch
      else
        let dstRemote := if dstRemote = "" then "." else dstRemote
        let toTouch := toTouch ++ [touchJob.mk dstRemote file]
        if FirstOnly then some toTouch
        else decompose split FirstOnly fuel dstRemote toTouch

/-- Modelled from the spec: the runner that surfaces the error of the job loop
(section 6, exit behaviour), which is `cmd.Run` of the rclone library, called
at line 93 as `cmd.Run(true, false, command, f)`; the command imports the
library and its source is not among the sources of this repository.  The model
follows the library for `Retry = true`: the loop `for try := 1; try <= retries`
calls the closure `f`; a nil error ends the run; an error that is not retried
ends the run with that error; any other error is kept in `cmdErr` and the
closure is called again, on the world the failed pass left, while tries remain.
The first argument counts the tries that remain, the second is `cmdErr`.  The
error statistics of the framework are taken to hold the error the closure
returned and nothing else. -/
def cmdRun {σ : Type} (retryable : Error → Bool) (f : World σ → Option Error × World σ) :
    Nat → Option Error → World σ → Option Error × World σ
  | 0, cmdErr, w => (cmdErr, w)
  | tries + 1, _, w =>
    match f w with
    | (none, w1) => (none, w1)
    | (some err, w1) =>
      if retryable err then cmdRun retryable f tries (some err) w1 else (some err, w1)

/-- Lines 93-101: the job loop over `toTouch` handed to `cmd.Run` with retries
enabled. -/
def runWithRetries {σ : Type} (flags : Flags) (env : Env) (b : Backend σ)
    (toTouch : List touchJob) (w : World σ) : Option Error × World σ :=
  cmdRun env.retryable (runJobs flags env b toTouch) env.retries none w

/-- The body of `commandDefinition.Run` (lines 65-102) for the argument `path`:
the job list is built, then `cmd.Run` runs the job loop.  `none` means the
decomposition loop did not finish within the fuel. -/
def commandRun {σ : Type} (flags : Flags) (env : Env) (b : Backend σ)
    (split : String → Except Error (String × String)) (fuel : Nat) (path : String)
    (w : World σ) : Option (Option Error × World σ) :=
  match decompose split flags.FirstOnly fuel path [] with
  | none => none
  | some toTouch => some (runWithRetries flags env b toTouch w)

/-! ## A reference store and sample services -/

/-- Modelled from the spec: one entry of a storage namespace (section 6 and the
glossary: a container holds named objects and sub-containers; an object is
named, sized and timestamped).  The backends themselves are not among the
sources. -/
structure Entry where
  fs : String
  name : String
  isDir : Bool
  size : Int
  modTime : Time
  deriving DecidableEq, Repr

/-- Modelled from the spec: whether an entry is the one called `name` in the
container `fs`. -/
def Entry.isAt (e : Entry) (fs name : String) : Bool :=
  e.fs = fs && e.name = name

/-- Modelled from the spec: the entry called `name` in the container `fs`. -/
def memFind (s : List Entry) (fs name : String) : Option Entry :=
  s.find? (fun e => e.isAt fs name)

/-- Modelled from the spec: `locate(name)` of section 6, telling "not found"
from "found but not a plain file", for which it hands back the entry. -/
def memNewObject (s : List Entry) (fs name : String) : Lookup :=
  match memFind s fs name with
  | none => Lookup.failed none Error.objectNotFound
  | some e => if e.isDir then Lookup.failed (some ⟨fs, name⟩) Error.notAFile else Lookup.found ⟨fs, name⟩

/-- Modelled from the spec: `create(name, content-bytes, size, timestamp)` of
section 6; the new plain object takes the place of any plain object of that name. -/
def memPut (s : List Entry) (fs : String) (_content : List Nat) (src : StaticObjectInfo) :
    Option Error × List Entry :=
  (none, ⟨fs, src.remote, false, src.size, src.modTime⟩ :: s.filter (fun e => !(e.isAt fs src.remote && !e.isDir)))

/-- Modelled from the spec: `setModificationTime(timestamp)` of section 6 on the
entry a handle names. -/
def memSetModTime (s : List Entry) (o : Object) (t : Time) : Option Error × List Entry :=
  match memFind s o.fs o.remote with
  | none => (some Error.objectNotFound, s)
  | some _ => (none, s.map (fun e => if e.isAt o.fs o.remote then { e with modTime := t } else e))

/-- Modelled from the spec: the storage namespace of section 6 over a list of
entries. -/
def memBackend : Backend (List Entry) :=
  ⟨memNewObject, memPut, memSetModTime⟩

/-- A stand-in for the library parsers in concrete runs: it accepts a value made
of digits that is as long as the layout, and reads it as a number. -/
def digitsParse (layout value : String) : Except Error Time :=
  if value.data.all Char.isDigit && value.data.length = layout.data.length then
    .ok (Int.ofNat (value.data.foldl (fun n c => 10 * n + (c.toNat - 48)) 0))
  else .error (Error.other "parsing time: cannot parse value")

/-- Sample services for concrete runs: a clock that advances by one between
readings, starting at 1000, `digitsParse` for both parsers, three tries as by
default, and every error retried. -/
def sampleEnv : Env :=
  ⟨fun n => 1000 + Int.ofNat n, digitsParse, digitsParse, 3, fun _ => true⟩

/-- A backend over a counter of failures still to come: lookups always find
the object, creates succeed, and an update fails while the counter is positive,
counting it down.  A stand-in for a storage with a transient fault. -/
def flakyBackend : Backend Nat :=
  ⟨fun _ fs name => Lookup.found ⟨fs, name⟩,
   fun s _ _ _ => (none, s),
   fun s _ _ => if s = 0 then (none, s) else (some (Error.other "temporary failure"), s - 1)⟩

/-- The world before a run on the store `s`: no clock reading, no call. -/
def World.init {σ : Type} (s : σ) : World σ :=
  ⟨s, 0, []⟩

/-- The timestamps handed to the storage in a log of calls, in order: the
modification time of each created object and the time of each update. -/
def stamps : List Call → List Time
  | [] => []
  | Call.newObject _ _ :: cs => stamps cs
  | Call.put _ _ src :: cs => src.modTime :: stamps cs
  | Call.setModTime _ t :: cs => t :: stamps cs

/-- The number of `/` separators in a path. -/
def separators (path : String) : Nat :=
  path.data.count '/'

/-- A backend whose lookups always find an object and whose updates and creates
always fail: a stand-in for a storage that refuses every mutation. -/
def refusingBackend : Backend Unit :=
  ⟨fun _ fs name => Lookup.found ⟨fs, name⟩,
   fun s _ _ _ => (some (Error.other "put refused"), s),
   fun s _ _ => (some (Error.other "permission denied"), s)⟩

/-- Whether `fspath.Parse` finds a remote name in the path: the pattern matches
and the name before the colon is a valid config name. -/
def hasRemoteName (path : String) : Bool :=
  match urlMatcher path.data with
  | some (configName, _) => validConfigName configName
  | none => false

/-- A backend whose lookups always fail with a permission error and no handle,
and whose creates succeed: a stand-in for a storage that cannot be listed. -/
def unlistableBackend : Backend Unit :=
  ⟨fun _ _ _ => Lookup.failed none (Error.other "permission denied"),
   fun s _ _ _ => (none, s),
   fun s _ _ => (none, s)⟩

/-- The order the specification asks of a job list built from `path`: the
container of the first job joined with its leaf is `path` with one trailing
separator stripped, the leaf holding no separator (it is the final component);
and the rest of the list is ordered in the same way from the container of the
first job, so that each job targets the container of the job before it. -/
def walkOrdered : String → List touchJob → Bool
  | _, [] => true
  | path, j :: rest =>
    (j.fs ++ j.fileName == stripPadding path) && !(j.fileName.data.contains '/') &&
      walkOrdered j.fs rest

/-- The object handle a lookup hands back, if any: the value of `file` after
line 126. -/
def Lookup.handle : Lookup → Option Object
  | Lookup.found file => some file
  | Lookup.failed file _ => file

/-- Whether a storage call changes the store: a create or a modification-time
update, as opposed to a lookup. -/
def Call.isMutation : Call → Bool
  | Call.newObject _ _ => false
  | Call.put _ _ _ => true
  | Call.setModTime _ _ => true

/-! # Theorems

## The executor: one job -/

theorem resolveTime_none (flags : Flags) (env : Env) (now : Time)
    (h : flags.timeAsArgument = "") : resolveTime flags env now = .ok now := by
  simp [resolveTime, h]

theorem resolveTime_ok (flags : Flags) (env : Env) (now t : Time)
    (h : flags.timeAsArgument ≠ "") (hp : parseOverride flags env = .ok t) :
    resolveTime flags env now = .ok t := by
  simp [resolveTime, h, hp]

theorem resolveTime_error (flags : Flags) (env : Env) (now : Time) (e : Error)
    (h : flags.timeAsArgument ≠ "") (hp : parseOverride flags env = .error e) :
    resolveTime flags env now = .error (Error.wrap e "failed to parse date/time argument") := by
  simp [resolveTime, h, hp]

/-- With creation enabled, a lookup that fails with the not-a-file error and a
handle leads to a create call and to no mod-time update: the result of `Put`
has replaced the lookup error by the time line 136 tests it. -/
theorem Touch_notAFile_create {σ : Type} (flags : Flags) (env : Env) (b : Backend σ)
    (fsrc srcFileName : String) (w : World σ) (timeAtr : Time) (file : Object)
    (hflag : flags.notCreateNewFile = false)
    (ht : resolveTime flags env (env.now w.ticks) = .ok timeAtr)
    (hl : b.NewObject w.store fsrc srcFileName = .failed (some file) Error.notAFile) :
    Touch flags env b fsrc srcFileName w =
      ((b.Put w.store fsrc [] ⟨srcFileName, timeAtr, 0, true, fsrc⟩).1,
       ⟨(b.Put w.store fsrc [] ⟨srcFileName, timeAtr, 0, true, fsrc⟩).2, w.ticks + 1,
        w.calls ++ [Call.newObject fsrc srcFileName,
                    Call.put fsrc [] ⟨srcFileName, timeAtr, 0, true, fsrc⟩]⟩) := by
  simp only [Touch, ht, hl, hflag]
  cases hput : (b.Put w.store fsrc [] ⟨srcFileName, timeAtr, 0, true, fsrc⟩).1 <;>
    simp [touchFolder, hput]

/-- With creation disabled, a lookup that fails with the not-a-file error and a
handle leads to exactly one storage mutation, the mod-time update of the
entry behind the handle, whose failure is tagged as the folder failure. -/
theorem Touch_notAFile_noCreate {σ : Type} (flags : Flags) (env : Env) (b : Backend σ)
    (fsrc srcFileName : String) (w : World σ) (timeAtr : Time) (file : Object)
    (hflag : flags.notCreateNewFile = true)
    (ht : resolveTime flags env (env.now w.ticks) = .ok timeAtr)
    (hl : b.NewObject w.store fsrc srcFileName = .failed (some file) Error.notAFile) :
    Touch flags env b fsrc srcFileName w =
      ((b.SetModTime w.store file timeAtr).1.map
          (fun e => Error.wrap e "touch: couldn't set mod time of folder"),
       ⟨(b.SetModTime w.store file timeAtr).2, w.ticks + 1,
        w.calls ++ [Call.newObject fsrc srcFileName, Call.setModTime file timeAtr]⟩) := by
  simp only [Touch, ht, hl, hflag]
  cases hset : (b.SetModTime w.store file timeAtr).1 <;>
    simp [touchFolder, hset]

/-- C1 (the code departs from the claim): `dir` exists as a container in
`remote:`, creation is enabled and no override is given.  The lookup fails with
the not-a-file error and a handle, yet `Touch` makes a create call for a
zero-length object named `dir`, makes no set-modification-time call, leaves the
container entry with its old time and returns success. -/
theorem touch_folder_default_flags_creates :
    memBackend.NewObject [⟨"remote:", "dir", true, 0, 5⟩] "remote:" "dir"
        = Lookup.failed (some ⟨"remote:", "dir"⟩) Error.notAFile ∧
    Touch ⟨false, "", false, false⟩ sampleEnv memBackend "remote:" "dir"
        (World.init [⟨"remote:", "dir", true, 0, 5⟩])
      = (none,
         ⟨[⟨"remote:", "dir", false, 0, 1000⟩, ⟨"remote:", "dir", true, 0, 5⟩], 1,
          [Call.newObject "remote:" "dir",
           Call.put "remote:" [] ⟨"dir", 1000, 0, true, "remote:"⟩]⟩) := by
  constructor <;> rfl


theorem stamps_append (a b : List Call) : stamps (a ++ b) = stamps a ++ stamps b := by
  induction a with
  | nil => rfl
  | cons c cs ih => cases c <;> simp [stamps, ih]

/-- What one `Touch` call adds to the world: one clock reading, and calls whose
timestamps are all the value `timeAtr` resolved at the start of this call. -/
theorem Touch_added {σ : Type} (flags : Flags) (env : Env) (b : Backend σ)
    (fsrc srcFileName : String) (w : World σ) :
    ∃ added : List Call,
      (Touch flags env b fsrc srcFileName w).2.calls = w.calls ++ added ∧
      (Touch flags env b fsrc srcFileName w).2.ticks = w.ticks + 1 ∧
      ∀ t ∈ stamps added, resolveTime flags env (env.now w.ticks) = .ok t := by
  cases ht : resolveTime flags env (env.now w.ticks) with
  | error e => exact ⟨[], by simp [Touch, ht, stamps]⟩
  | ok timeAtr =>
    cases hl : b.NewObject w.store fsrc srcFileName with
    | found file =>
      refine ⟨[Call.newObject fsrc srcFileName, Call.setModTime file timeAtr], ?_⟩
      cases hs : (b.SetModTime w.store file timeAtr).1 <;> simp [Touch, ht, hl, hs, stamps]
    | failed file err =>
      cases hflag : flags.notCreateNewFile
      · refine ⟨[Call.newObject fsrc srcFileName,
          Call.put fsrc [] ⟨srcFileName, timeAtr, 0, true, fsrc⟩], ?_⟩
        cases hp : (b.Put w.store fsrc [] ⟨srcFileName, timeAtr, 0, true, fsrc⟩).1 <;>
          simp [Touch, ht, hl, hflag, hp, stamps, touchFolder]
      · cases err with
        | notAFile =>
          cases file with
          | none =>
            exact ⟨[Call.newObject fsrc srcFileName], by simp [Touch, ht, hl, hflag, stamps, touchFolder]⟩
          | some f =>
            refine ⟨[Call.newObject fsrc srcFileName, Call.setModTime f timeAtr], ?_⟩
            cases hs : (b.SetModTime w.store f timeAtr).1 <;>
              simp [Touch, ht, hl, hflag, stamps, touchFolder, hs]
        | objectNotFound =>
          exact ⟨[Call.newObject fsrc srcFileName], by simp [Touch, ht, hl, hflag, stamps, touchFolder]⟩
        | other m =>
          exact ⟨[Call.newObject fsrc srcFileName], by simp [Touch, ht, hl, hflag, stamps, touchFolder]⟩
        | wrap c m =>
          exact ⟨[Call.newObject fsrc srcFileName], by simp [Touch, ht, hl, hflag, stamps, touchFolder]⟩

/-- What a run of the job loop adds to the world: the timestamp of every call
is the value resolved by one of the jobs, the job number `i` resolving it from
the clock reading number `i` after those already taken. -/
theorem runJobs_added {σ : Type} (flags : Flags) (env : Env) (b : Backend σ)
    (jobs : List touchJob) (w : World σ) :
    ∃ added : List Call,
      (runJobs flags env b jobs w).2.calls = w.calls ++ added ∧
      ∀ t ∈ stamps added, ∃ i, i < jobs.length ∧
        resolveTime flags env (env.now (w.ticks + i)) = .ok t := by
  induction jobs generalizing w with
  | nil => exact ⟨[], by simp [runJobs, stamps]⟩
  | cons j rest ih =>
    obtain ⟨a1, hc1, hk1, hs1⟩ := Touch_added flags env b j.fs j.fileName w
    unfold runJobs
    cases hT : Touch flags env b j.fs j.fileName w with
    | mk r w1 =>
      rw [hT] at hc1 hk1
      simp only at hc1 hk1
      cases r with
      | some e =>
        refine ⟨a1, hc1, ?_⟩
        intro t ht
        exact ⟨0, by simp, by simpa using hs1 t ht⟩
      | none =>
        obtain ⟨a2, hc2, hs2⟩ := ih w1
        refine ⟨a1 ++ a2, by simp [hc2, hc1], ?_⟩
        intro t ht
        rw [stamps_append, List.mem_append] at ht
        rcases ht with ht | ht
        · exact ⟨0, by simp, by simpa using hs1 t ht⟩
        · obtain ⟨i, hi, hr⟩ := hs2 t ht
          refine ⟨i + 1, by simpa using hi, ?_⟩
          rw [hk1] at hr
          rw [show w.ticks + (i + 1) = w.ticks + 1 + i by omega]
          exact hr


/-- The job loop over a list in two parts: when the first part ends without
error, the loop goes on with the second part from the world the first part
left. -/
theorem runJobs_append {σ : Type} (flags : Flags) (env : Env) (b : Backend σ)
    (pre post : List touchJob) (w : World σ) (h : (runJobs flags env b pre w).1 = none) :
    runJobs flags env b (pre ++ post) w = runJobs flags env b post (runJobs flags env b pre w).2 := by
  induction pre generalizing w with
  | nil => rfl
  | cons j rest ih =>
    simp only [List.cons_append, runJobs] at h ⊢
    cases hT : Touch flags env b j.fs j.fileName w with
    | mk r w1 =>
      cases r with
      | some e => simp [hT] at h
      | none =>
        simp only [hT] at h ⊢
        exact ih w1 h

/-- The job loop over one job is the `Touch` call for that job. -/
theorem runJobs_singleton {σ : Type} (flags : Flags) (env : Env) (b : Backend σ)
    (j : touchJob) (w : World σ) :
    runJobs flags env b [j] w = Touch flags env b j.fs j.fileName w := by
  unfold runJobs
  cases hT : Touch flags env b j.fs j.fileName w with
  | mk r w1 => cases r <;> simp [runJobs]

/-- A pass whose jobs all succeed has read the clock once per job. -/
theorem runJobs_ticks {σ : Type} (flags : Flags) (env : Env) (b : Backend σ)
    (jobs : List touchJob) (w : World σ) (h : (runJobs flags env b jobs w).1 = none) :
    (runJobs flags env b jobs w).2.ticks = w.ticks + jobs.length := by
  induction jobs generalizing w with
  | nil => rfl
  | cons j rest ih =>
    obtain ⟨_, _, hk, _⟩ := Touch_added flags env b j.fs j.fileName w
    simp only [runJobs] at h ⊢
    cases hT : Touch flags env b j.fs j.fileName w with
    | mk r w1 =>
      rw [hT] at hk
      simp only at hk
      cases r with
      | some e => simp [hT] at h
      | none =>
        simp only [hT] at h ⊢
        rw [ih w1 h, hk, List.length_cons]
        omega

/-- The timestamps of the calls one `Touch` call adds to the log are all the
value it resolved from the clock reading taken at its start. -/
theorem Touch_stamps {σ : Type} (flags : Flags) (env : Env) (b : Backend σ)
    (fsrc srcFileName : String) (w : World σ) :
    ∀ t ∈ stamps ((Touch flags env b fsrc srcFileName w).2.calls.drop w.calls.length),
      (flags.timeAsArgument = "" → t = env.now w.ticks) ∧
      (flags.timeAsArgument ≠ "" → parseOverride flags env = .ok t) := by
  obtain ⟨added, hc, _, hs⟩ := Touch_added flags env b fsrc srcFileName w
  rw [hc, List.drop_left]
  intro t ht
  have hr := hs t ht
  constructor
  · intro h
    rw [resolveTime_none flags env _ h] at hr
    simpa using hr.symm
  · intro h
    simp only [resolveTime, h, ne_eq, not_false_eq_true, if_true] at hr
    cases hp : parseOverride flags env with
    | error e => simp [hp] at hr
    | ok u => simpa [hp] using hr

/-- What a run with retries adds to the world: the timestamp of every call is a
value resolved by one of the `Touch` calls of one of its passes. -/
theorem cmdRun_added {σ : Type} (flags : Flags) (env : Env) (b : Backend σ)
    (jobs : List touchJob) (tries : Nat) :
    ∀ (cmdErr : Option Error) (w : World σ),
      ∃ added : List Call,
        (cmdRun env.retryable (runJobs flags env b jobs) tries cmdErr w).2.calls
          = w.calls ++ added ∧
        ∀ t ∈ stamps added, ∃ k, resolveTime flags env (env.now k) = .ok t := by
  induction tries with
  | zero => intro cmdErr w; exact ⟨[], by simp [cmdRun, stamps]⟩
  | succ n ih =>
    intro cmdErr w
    obtain ⟨a1, hc1, hs1⟩ := runJobs_added flags env b jobs w
    have hs1k : ∀ t ∈ stamps a1, ∃ k, resolveTime flags env (env.now k) = .ok t := by
      intro t ht
      obtain ⟨i, _, hr⟩ := hs1 t ht
      exact ⟨_, hr⟩
    unfold cmdRun
    cases hf : runJobs flags env b jobs w with
    | mk r w1 =>
      rw [hf] at hc1
      simp only at hc1
      cases r with
      | none => exact ⟨a1, hc1, hs1k⟩
      | some e =>
        simp only
        by_cases hre : env.retryable e = true
        · rw [if_pos hre]
          obtain ⟨a2, hc2, hs2⟩ := ih (some e) w1
          refine ⟨a1 ++ a2, by rw [hc2, hc1, List.append_assoc], ?_⟩
          intro t ht
          rw [stamps_append, List.mem_append] at ht
          rcases ht with ht | ht
          · exact hs1k t ht
          · exact hs2 t ht
        · rw [if_neg hre]
          exact ⟨a1, hc1, hs1k⟩

/-- With tries left, a run ends as its last pass ends: its result and the world
it leaves are those of one pass of the closure. -/
theorem cmdRun_last_pass {σ : Type} (retryable : Error → Bool)
    (f : World σ → Option Error × World σ) (tries : Nat) :
    ∀ (cmdErr : Option Error) (w : World σ),
      ∃ w0, cmdRun retryable f (tries + 1) cmdErr w = f w0 := by
  induction tries with
  | zero =>
    intro cmdErr w
    refine ⟨w, ?_⟩
    unfold cmdRun
    cases hf : f w with
    | mk r w1 =>
      cases r with
      | none => rfl
      | some e => by_cases hre : retryable e = true <;> simp [hre, cmdRun]
  | succ n ih =>
    intro cmdErr w
    unfold cmdRun
    cases hf : f w with
    | mk r w1 =>
      cases r with
      | none => exact ⟨w, by simp [hf]⟩
      | some e =>
        by_cases hre : retryable e = true
        · simp only [hre, if_true]
          exact ih (some e) w1
        · exact ⟨w, by simp [hre, hf]⟩

/-- On an empty job list the run reports success and leaves the world as it is,
whatever the number of tries. -/
theorem runWithRetries_nil {σ : Type} (flags : Flags) (env : Env) (b : Backend σ)
    (w : World σ) : runWithRetries flags env b [] w = (none, w) := by
  unfold runWithRetries
  cases env.retries with
  | zero => rfl
  | succ n => simp [cmdRun, runJobs]

/-- C2 (as amended): the timestamp is resolved by every `Touch` call, not once
per run.  Every `Touch` call takes exactly one clock reading, at its start, and
every timestamp it hands to the storage is that reading when there is no
override, and the value the override parses to when there is one.  In a pass
of the job loop whose jobs `pre` have succeeded, `pre.length` readings have
been taken since the pass began, and the job that comes next hands the storage
the reading numbered `pre.length` after those taken before the pass when there
is no override.  With an override every timestamp handed to the storage during
the whole run, retried passes included, is the value the override parses
to. -/
theorem run_timestamps_per_job {σ : Type} (flags : Flags) (env : Env) (b : Backend σ) :
    (∀ (fsrc srcFileName : String) (w : World σ),
      (Touch flags env b fsrc srcFileName w).2.ticks = w.ticks + 1 ∧
      ∀ t ∈ stamps ((Touch flags env b fsrc srcFileName w).2.calls.drop w.calls.length),
        (flags.timeAsArgument = "" → t = env.now w.ticks) ∧
        (flags.timeAsArgument ≠ "" → parseOverride flags env = .ok t)) ∧
    (∀ (pre : List touchJob) (j : touchJob) (w : World σ),
      (runJobs flags env b pre w).1 = none →
      (runJobs flags env b pre w).2.ticks = w.ticks + pre.length ∧
      ∀ t ∈ stamps ((runJobs flags env b (pre ++ [j]) w).2.calls.drop
            (runJobs flags env b pre w).2.calls.length),
        (flags.timeAsArgument = "" → t = env.now (w.ticks + pre.length)) ∧
        (flags.timeAsArgument ≠ "" → parseOverride flags env = .ok t)) ∧
    (flags.timeAsArgument ≠ "" →
      ∀ (jobs : List touchJob) (w : World σ),
        ∀ t ∈ stamps ((runWithRetries flags env b jobs w).2.calls.drop w.calls.length),
          parseOverride flags env = .ok t) := by
  refine ⟨?_, ?_, ?_⟩
  · intro fsrc srcFileName w
    obtain ⟨_, _, hk, _⟩ := Touch_added flags env b fsrc srcFileName w
    exact ⟨hk, Touch_stamps flags env b fsrc srcFileName w⟩
  · intro pre j w hpre
    have hk := runJobs_ticks flags env b pre w hpre
    refine ⟨hk, ?_⟩
    rw [runJobs_append flags env b pre [j] w hpre, runJobs_singleton]
    intro t ht
    have := Touch_stamps flags env b j.fs j.fileName (runJobs flags env b pre w).2 t ht
    rw [hk] at this
    exact this
  · intro h jobs w t ht
    obtain ⟨added, hc, hs⟩ := cmdRun_added flags env b jobs env.retries none w
    unfold runWithRetries at ht
    rw [hc, List.drop_left] at ht
    obtain ⟨k, hr⟩ := hs t ht
    simp only [resolveTime, h, ne_eq, not_false_eq_true, if_true] at hr
    cases hp : parseOverride flags env with
    | error e => simp [hp] at hr
    | ok u => simpa [hp] using hr

/-- C2, witness of the amended statement: the two jobs of `remote:dir/f.txt`
with no override.  The first `Touch` call leaves one reading taken; the second
job hands the storage the reading numbered 1, which is 1001, while the first
handed it 1000.  With the override `230115` both get 230115. -/
theorem run_timestamps_per_job_witness :
    (Touch ⟨true, "", false, false⟩ sampleEnv memBackend "remote:dir/" "f.txt"
        (World.init [⟨"remote:", "dir", true, 0, 5⟩,
          ⟨"remote:dir/", "f.txt", false, 3, 7⟩])).2.ticks = 0 + 1 ∧
    (∀ t ∈ stamps ((runJobs ⟨true, "", false, false⟩ sampleEnv memBackend
          ([⟨"remote:dir/", "f.txt"⟩] ++ [⟨"remote:", "dir"⟩])
          (World.init [⟨"remote:", "dir", true, 0, 5⟩,
            ⟨"remote:dir/", "f.txt", false, 3, 7⟩])).2.calls.drop
        (runJobs ⟨true, "", false, false⟩ sampleEnv memBackend [⟨"remote:dir/", "f.txt"⟩]
          (World.init [⟨"remote:", "dir", true, 0, 5⟩,
            ⟨"remote:dir/", "f.txt", false, 3, 7⟩])).2.calls.length),
      t = sampleEnv.now (0 + 1)) ∧
    stamps (runJobs ⟨true, "", false, false⟩ sampleEnv memBackend
        [⟨"remote:dir/", "f.txt"⟩, ⟨"remote:", "dir"⟩]
        (World.init [⟨"remote:", "dir", true, 0, 5⟩,
          ⟨"remote:dir/", "f.txt", false, 3, 7⟩])).2.calls = [1000, 1001] ∧
    (∀ t ∈ stamps ((runWithRetries ⟨true, "230115", false, false⟩ sampleEnv memBackend
        [⟨"remote:dir/", "f.txt"⟩, ⟨"remote:", "dir"⟩]
        (World.init [⟨"remote:", "dir", true, 0, 5⟩,
          ⟨"remote:dir/", "f.txt", false, 3, 7⟩])).2.calls.drop 0),
      parseOverride ⟨true, "230115", false, false⟩ sampleEnv = .ok t) :=
  ⟨((run_timestamps_per_job ⟨true, "", false, false⟩ sampleEnv memBackend).1
      "remote:dir/" "f.txt"
      (World.init [⟨"remote:", "dir", true, 0, 5⟩, ⟨"remote:dir/", "f.txt", false, 3, 7⟩])).1,
   fun t ht =>
    ((((run_timestamps_per_job ⟨true, "", false, false⟩ sampleEnv memBackend).2.1
      [⟨"remote:dir/", "f.txt"⟩] ⟨"remote:", "dir"⟩
      (World.init [⟨"remote:", "dir", true, 0, 5⟩, ⟨"remote:dir/", "f.txt", false, 3, 7⟩])
      rfl).2 t ht).1 rfl),
   rfl,
   (run_timestamps_per_job ⟨true, "230115", false, false⟩ sampleEnv memBackend).2.2
      (by decide) [⟨"remote:dir/", "f.txt"⟩, ⟨"remote:", "dir"⟩]
      (World.init [⟨"remote:", "dir", true, 0, 5⟩, ⟨"remote:dir/", "f.txt", false, 3, 7⟩])⟩

/-- C2 (the claim fails as stated): no override, the path `remote:dir/f.txt`
where `f.txt` is a plain object and `dir` a container, creation disabled.  The
run has two jobs; the first hands the storage the clock reading 1000 and the
second the later reading 1001. -/
theorem run_without_override_two_timestamps :
    (commandRun ⟨true, "", false, false⟩ sampleEnv memBackend fspathSplit 4 "remote:dir/f.txt"
        (World.init [⟨"remote:", "dir", true, 0, 5⟩,
          ⟨"remote:dir/", "f.txt", false, 3, 7⟩])).map (fun r => (r.1, r.2.calls))
      = some (none,
          [Call.newObject "remote:dir/" "f.txt",
           Call.setModTime ⟨"remote:dir/", "f.txt"⟩ 1000,
           Call.newObject "remote:" "dir",
           Call.setModTime ⟨"remote:", "dir"⟩ 1001]) ∧
    ¬ (∀ r ∈ commandRun ⟨true, "", false, false⟩ sampleEnv memBackend fspathSplit 4
          "remote:dir/f.txt"
          (World.init [⟨"remote:", "dir", true, 0, 5⟩, ⟨"remote:dir/", "f.txt", false, 3, 7⟩]),
        ∀ t ∈ stamps r.2.calls, ∀ u ∈ stamps r.2.calls, t = u) := by
  constructor
  · rfl
  · intro h
    have := h _ rfl 1000 (by decide) 1001 (by decide)
    exact absurd this (by decide)

/-- When the override does not parse, the job loop over a non-empty list stops
in its first `Touch` call, before any storage call. -/
theorem runJobs_parse_error {σ : Type} (flags : Flags) (env : Env) (b : Backend σ)
    (j : touchJob) (rest : List touchJob) (w : World σ) (perr : Error)
    (h : flags.timeAsArgument ≠ "") (hp : parseOverride flags env = .error perr) :
    runJobs flags env b (j :: rest) w =
      (some (Error.wrap perr "failed to parse date/time argument"),
       ⟨w.store, w.ticks + 1, w.calls⟩) := by
  simp [runJobs, Touch, resolveTime_error flags env _ perr h hp]

/-- When the override does not parse, every pass over a non-empty job list stops
in its first `Touch` call, so a run with tries left ends with the wrapped parse
error after as many passes as `cmd.Run` makes, one clock reading each, and
without any storage call. -/
theorem cmdRun_parse_error {σ : Type} (flags : Flags) (env : Env) (b : Backend σ)
    (j : touchJob) (rest : List touchJob) (perr : Error)
    (h : flags.timeAsArgument ≠ "") (hp : parseOverride flags env = .error perr)
    (tries : Nat) :
    ∀ (cmdErr : Option Error) (w : World σ),
      cmdRun env.retryable (runJobs flags env b (j :: rest)) (tries + 1) cmdErr w =
        (some (Error.wrap perr "failed to parse date/time argument"),
         ⟨w.store,
          w.ticks + (if env.retryable (Error.wrap perr "failed to parse date/time argument")
            then tries + 1 else 1),
          w.calls⟩) := by
  induction tries with
  | zero =>
    intro cmdErr w
    unfold cmdRun
    rw [runJobs_parse_error flags env b j rest w perr h hp]
    by_cases hre : env.retryable (Error.wrap perr "failed to parse date/time argument") = true
    · simp [hre, cmdRun]
    · simp [hre]
  | succ n ih =>
    intro cmdErr w
    unfold cmdRun
    rw [runJobs_parse_error flags env b j rest w perr h hp]
    by_cases hre : env.retryable (Error.wrap perr "failed to parse date/time argument") = true
    · simp only [hre, if_true]
      rw [ih]
      simp only [hre, if_true]
      congr 2
      omega
    · simp [hre]

/-- C4 (as amended): the override is non-empty and does not parse under the
layout chosen for it, and the decomposition of the path ends with the list
`jobs`.  If `jobs` is not empty and `cmd.Run` has at least one try, the run ends
with the parse error wrapped as the malformed date/time argument, the store is
as before and no storage call has been made; every pass `cmd.Run` makes, all
its tries when the error is one it retries and one otherwise, stops in its
first `Touch` call after one clock reading.  If `jobs` is empty the run reports
success, again without any storage call, and the override is never parsed. -/
theorem run_malformed_timestamp {σ : Type} (flags : Flags) (env : Env) (b : Backend σ)
    (split : String → Except Error (String × String)) (fuel : Nat) (path : String)
    (w : World σ) (perr : Error) (jobs : List touchJob)
    (h : flags.timeAsArgument ≠ "") (hp : parseOverride flags env = .error perr)
    (hd : decompose split flags.FirstOnly fuel path [] = some jobs) :
    (jobs ≠ [] → 0 < env.retries →
      commandRun flags env b split fuel path w =
        some (some (Error.wrap perr "failed to parse date/time argument"),
              ⟨w.store,
               w.ticks + (if env.retryable (Error.wrap perr "failed to parse date/time argument")
                 then env.retries else 1),
               w.calls⟩)) ∧
    (jobs = [] → commandRun flags env b split fuel path w = some (none, w)) := by
  constructor
  · intro hne hpos
    cases jobs with
    | nil => exact absurd rfl hne
    | cons j rest =>
      obtain ⟨n, hn⟩ : ∃ n, env.retries = n + 1 := ⟨env.retries - 1, by omega⟩
      simp only [commandRun, hd, runWithRetries, hn]
      rw [cmdRun_parse_error flags env b j rest perr h hp n none w]
  · intro he
    subst he
    simp [commandRun, hd, runWithRetries_nil]

/-- C4, witness of the amended statement: the override `not-a-date` on the
path `remote:dir/f.txt`, which decomposes into two jobs; the three passes of
the run make no storage call. -/
theorem run_malformed_timestamp_witness :
    commandRun ⟨false, "not-a-date", false, false⟩ sampleEnv memBackend fspathSplit 4
        "remote:dir/f.txt" (World.init [⟨"remote:", "dir", true, 0, 5⟩])
      = some (some (Error.wrap (Error.other "parsing time: cannot parse value")
                "failed to parse date/time argument"),
              ⟨[⟨"remote:", "dir", true, 0, 5⟩], 3, []⟩) :=
  (run_malformed_timestamp ⟨false, "not-a-date", false, false⟩ sampleEnv memBackend fspathSplit 4
      "remote:dir/f.txt" (World.init [⟨"remote:", "dir", true, 0, 5⟩])
      (Error.other "parsing time: cannot parse value")
      [⟨"remote:dir/", "f.txt"⟩, ⟨"remote:", "dir"⟩] (by decide) (by rfl) (by rfl)).1
    (by decide) (by decide)

/-- C4 (the claim fails as stated): the override `not-a-date` does not parse,
yet on the path `remote:`, which decomposes into no job, the run reports
success: the override is only parsed inside `Touch`, which is never called. -/
theorem run_malformed_timestamp_no_job :
    parseOverride ⟨false, "not-a-date", false, false⟩ sampleEnv
      = .error (Error.other "parsing time: cannot parse value") ∧
    decompose fspathSplit false 4 "remote:" [] = some [] ∧
    commandRun ⟨false, "not-a-date", false, false⟩ sampleEnv memBackend fspathSplit 4
        "remote:" (World.init [⟨"remote:", "dir", true, 0, 5⟩])
      = some (none, World.init [⟨"remote:", "dir", true, 0, 5⟩]) := by
  refine ⟨rfl, rfl, rfl⟩

/-- C5: creation is disabled, the timestamp resolves, and the lookup fails with
the not-found error.  `Touch` returns success; the only call it makes is the
lookup, and the store is the one it was given. -/
theorem touch_noCreate_notFound {σ : Type} (flags : Flags) (env : Env) (b : Backend σ)
    (fsrc srcFileName : String) (w : World σ) (timeAtr : Time) (file : Option Object)
    (hflag : flags.notCreateNewFile = true)
    (ht : resolveTime flags env (env.now w.ticks) = .ok timeAtr)
    (hl : b.NewObject w.store fsrc srcFileName = .failed file Error.objectNotFound) :
    Touch flags env b fsrc srcFileName w =
      (none, ⟨w.store, w.ticks + 1, w.calls ++ [Call.newObject fsrc srcFileName]⟩) := by
  simp [Touch, ht, hl, hflag, touchFolder]

/-- C5, witness: `--no-create` on `missing.txt` in a store that lacks it. -/
theorem touch_noCreate_notFound_witness :
    Touch ⟨true, "", false, false⟩ sampleEnv memBackend "remote:dir/" "missing.txt"
        (World.init [⟨"remote:", "dir", true, 0, 5⟩])
      = (none, ⟨[⟨"remote:", "dir", true, 0, 5⟩], 1,
          [Call.newObject "remote:dir/" "missing.txt"]⟩) :=
  touch_noCreate_notFound ⟨true, "", false, false⟩ sampleEnv memBackend "remote:dir/"
    "missing.txt" (World.init [⟨"remote:", "dir", true, 0, 5⟩]) 1000 none rfl rfl rfl


/-- In the reference store, an object just created is the one a lookup of its
name finds. -/
theorem memFind_memPut (s : List Entry) (fs : String) (content : List Nat)
    (src : StaticObjectInfo) :
    memFind (memPut s fs content src).2 fs src.remote
      = some ⟨fs, src.remote, false, src.size, src.modTime⟩ := by
  simp [memFind, memPut, Entry.isAt]

/-- C6: creation is enabled, the timestamp resolves to `timeAtr`, and the lookup
fails with the not-found error.  `Touch` makes, after the lookup, exactly one
call: a create in the container, for the name `srcFileName`, with no content,
size 0 and modification time `timeAtr`; it makes no set-modification-time call,
and it returns what the create returns (success, or the create error as it
is).  In the reference store, where create inserts the object described, a
lookup of the name afterwards finds a plain object of size zero whose
modification time is `timeAtr`. -/
theorem touch_create_when_missing :
    (∀ {σ : Type} (flags : Flags) (env : Env) (b : Backend σ) (fsrc srcFileName : String)
      (w : World σ) (timeAtr : Time) (file : Option Object),
      flags.notCreateNewFile = false →
      resolveTime flags env (env.now w.ticks) = .ok timeAtr →
      b.NewObject w.store fsrc srcFileName = .failed file Error.objectNotFound →
      Touch flags env b fsrc srcFileName w =
        ((b.Put w.store fsrc [] ⟨srcFileName, timeAtr, 0, true, fsrc⟩).1,
         ⟨(b.Put w.store fsrc [] ⟨srcFileName, timeAtr, 0, true, fsrc⟩).2, w.ticks + 1,
          w.calls ++ [Call.newObject fsrc srcFileName,
                      Call.put fsrc [] ⟨srcFileName, timeAtr, 0, true, fsrc⟩]⟩)) ∧
    (∀ (flags : Flags) (env : Env) (fsrc srcFileName : String) (w : World (List Entry))
      (timeAtr : Time) (file : Option Object),
      flags.notCreateNewFile = false →
      resolveTime flags env (env.now w.ticks) = .ok timeAtr →
      memBackend.NewObject w.store fsrc srcFileName = .failed file Error.objectNotFound →
      (Touch flags env memBackend fsrc srcFileName w).1 = none ∧
      memBackend.NewObject (Touch flags env memBackend fsrc srcFileName w).2.store fsrc srcFileName
        = .found ⟨fsrc, srcFileName⟩ ∧
      memFind (Touch flags env memBackend fsrc srcFileName w).2.store fsrc srcFileName
        = some ⟨fsrc, srcFileName, false, 0, timeAtr⟩) := by
  have key : ∀ {σ : Type} (flags : Flags) (env : Env) (b : Backend σ) (fsrc srcFileName : String)
      (w : World σ) (timeAtr : Time) (file : Option Object),
      flags.notCreateNewFile = false →
      resolveTime flags env (env.now w.ticks) = .ok timeAtr →
      b.NewObject w.store fsrc srcFileName = .failed file Error.objectNotFound →
      Touch flags env b fsrc srcFileName w =
        ((b.Put w.store fsrc [] ⟨srcFileName, timeAtr, 0, true, fsrc⟩).1,
         ⟨(b.Put w.store fsrc [] ⟨srcFileName, timeAtr, 0, true, fsrc⟩).2, w.ticks + 1,
          w.calls ++ [Call.newObject fsrc srcFileName,
                      Call.put fsrc [] ⟨srcFileName, timeAtr, 0, true, fsrc⟩]⟩) := by
    intro σ flags env b fsrc srcFileName w timeAtr file hflag ht hl
    simp only [Touch, ht, hl, hflag]
    cases hput : (b.Put w.store fsrc [] ⟨srcFileName, timeAtr, 0, true, fsrc⟩).1 <;>
      simp [touchFolder, hput]
  refine ⟨key, ?_⟩
  intro flags env fsrc srcFileName w timeAtr file hflag ht hl
  rw [key flags env memBackend fsrc srcFileName w timeAtr file hflag ht hl]
  have hf := memFind_memPut w.store fsrc [] ⟨srcFileName, timeAtr, 0, true, fsrc⟩
  refine ⟨rfl, ?_, hf⟩
  show memNewObject _ fsrc srcFileName = _
  unfold memNewObject
  have hf2 : memFind (memBackend.Put w.store fsrc []
      ⟨srcFileName, timeAtr, 0, true, fsrc⟩).2 fsrc srcFileName
      = some ⟨fsrc, srcFileName, false, 0, timeAtr⟩ := hf
  simp only [hf2]
  rfl

/-- C6, witness: default flags on `new.txt`, absent from the container. -/
theorem touch_create_when_missing_witness :
    Touch ⟨false, "", false, false⟩ sampleEnv memBackend "remote:dir/" "new.txt"
        (World.init [⟨"remote:", "dir", true, 0, 5⟩])
      = (none, ⟨[⟨"remote:dir/", "new.txt", false, 0, 1000⟩, ⟨"remote:", "dir", true, 0, 5⟩], 1,
          [Call.newObject "remote:dir/" "new.txt",
           Call.put "remote:dir/" [] ⟨"new.txt", 1000, 0, true, "remote:dir/"⟩]⟩) ∧
    memFind (Touch ⟨false, "", false, false⟩ sampleEnv memBackend "remote:dir/" "new.txt"
        (World.init [⟨"remote:", "dir", true, 0, 5⟩])).2.store "remote:dir/" "new.txt"
      = some ⟨"remote:dir/", "new.txt", false, 0, 1000⟩ :=
  ⟨touch_create_when_missing.1 ⟨false, "", false, false⟩ sampleEnv memBackend "remote:dir/"
      "new.txt" (World.init [⟨"remote:", "dir", true, 0, 5⟩]) 1000 none rfl rfl rfl,
   (touch_create_when_missing.2 ⟨false, "", false, false⟩ sampleEnv "remote:dir/"
      "new.txt" (World.init [⟨"remote:", "dir", true, 0, 5⟩]) 1000 none rfl rfl rfl).2.2⟩

/-- C7: the timestamp resolves to `timeAtr` and the lookup succeeds with the
object `file`, whatever the flags.  `Touch` makes, after the lookup, exactly one
call, a set-modification-time on `file` with `timeAtr`, and no create call; it
returns success when that call succeeds and otherwise its error wrapped with
the plain-file tag. -/
theorem touch_existing_file {σ : Type} (flags : Flags) (env : Env) (b : Backend σ)
    (fsrc srcFileName : String) (w : World σ) (timeAtr : Time) (file : Object)
    (ht : resolveTime flags env (env.now w.ticks) = .ok timeAtr)
    (hl : b.NewObject w.store fsrc srcFileName = .found file) :
    Touch flags env b fsrc srcFileName w =
      ((b.SetModTime w.store file timeAtr).1.map
          (fun e => Error.wrap e "touch: couldn't set mod time"),
       ⟨(b.SetModTime w.store file timeAtr).2, w.ticks + 1,
        w.calls ++ [Call.newObject fsrc srcFileName, Call.setModTime file timeAtr]⟩) := by
  simp only [Touch, ht, hl]
  cases hset : (b.SetModTime w.store file timeAtr).1 <;> simp [hset]

/-- C7, witness: an existing plain object whose update succeeds, and one whose
update the storage refuses. -/
theorem touch_existing_file_witness :
    Touch ⟨false, "", false, false⟩ sampleEnv memBackend "remote:dir/" "f.txt"
        (World.init [⟨"remote:dir/", "f.txt", false, 3, 7⟩])
      = (none, ⟨[⟨"remote:dir/", "f.txt", false, 3, 1000⟩], 1,
          [Call.newObject "remote:dir/" "f.txt",
           Call.setModTime ⟨"remote:dir/", "f.txt"⟩ 1000]⟩) ∧
    Touch ⟨false, "", false, false⟩ sampleEnv refusingBackend "remote:dir/" "f.txt"
        (World.init ())
      = (some (Error.wrap (Error.other "permission denied") "touch: couldn't set mod time"),
         ⟨(), 1, [Call.newObject "remote:dir/" "f.txt",
           Call.setModTime ⟨"remote:dir/", "f.txt"⟩ 1000]⟩) :=
  ⟨touch_existing_file ⟨false, "", false, false⟩ sampleEnv memBackend "remote:dir/" "f.txt"
      (World.init [⟨"remote:dir/", "f.txt", false, 3, 7⟩]) 1000 ⟨"remote:dir/", "f.txt"⟩ rfl rfl,
   touch_existing_file ⟨false, "", false, false⟩ sampleEnv refusingBackend "remote:dir/" "f.txt"
      (World.init ()) 1000 ⟨"remote:dir/", "f.txt"⟩ rfl rfl⟩


/-- C8: the layout chosen for an override depends on its length only: two
overrides of the same length get the same layout; length 6 gives the date-only
layout `060102`, length 19 the date-time layout `2006-01-02T15:04:05`, and every
length above 19 the layout with fractional seconds. -/
theorem layout_by_length :
    (∀ a b : String, len a = len b → layoutFor a = layoutFor b) ∧
    (∀ a : String, len a = 6 → layoutFor a = defaultLayout) ∧
    (∀ a : String, len a = 19 → layoutFor a = layoutDateWithTime) ∧
    (∀ a : String, len a > 19 → layoutFor a = layoutDateWithTimeNano) ∧
    defaultLayout = "060102" ∧ layoutDateWithTime = "2006-01-02T15:04:05" ∧
    layoutDateWithTimeNano = "2006-01-02T15:04:05.999999999" := by
  have h19 : len layoutDateWithTime = 19 := by decide
  refine ⟨?_, ?_, ?_, ?_, rfl, rfl, rfl⟩
  · intro a b h
    simp only [layoutFor, h]
  · intro a h
    simp [layoutFor, h, h19]
  · intro a h
    simp [layoutFor, h, h19]
  · intro a h
    have h1 : len a ≠ 19 := by omega
    simp [layoutFor, h19, h1, h]

/-- C8, witness: the three sample overrides of the specification. -/
theorem layout_by_length_witness :
    layoutFor "230115" = defaultLayout ∧
    layoutFor "2023-01-15T10:30:00" = layoutDateWithTime ∧
    layoutFor "2023-01-15T10:30:00.123456789" = layoutDateWithTimeNano ∧
    layoutFor "2023-01-15T10:30:00" = layoutFor "2006-01-02T15:04:05" :=
  ⟨layout_by_length.2.1 "230115" (by decide),
   layout_by_length.2.2.1 "2023-01-15T10:30:00" (by decide),
   layout_by_length.2.2.2.1 "2023-01-15T10:30:00.123456789" (by decide),
   layout_by_length.1 "2023-01-15T10:30:00" "2006-01-02T15:04:05" (by decide)⟩

/-- One trailing separator is what `stripPadding` removes. -/
theorem stripPadding_slash (p : String) : stripPadding (p ++ "/") = p := by
  have h : (p ++ "/").data = p.data ++ ['/'] := by simp
  simp [stripPadding, hasSlashSuffix, h]

/-- A path that does not end in a separator is left as it is. -/
theorem stripPadding_other (p : String) (h : hasSlashSuffix p = false) : stripPadding p = p := by
  simp [stripPadding, h]

/-- C9: with `FirstOnly` set the loop ends in its first iteration, for every
path and every splitter.  It yields no job when the split of the path stripped
of one trailing separator fails or returns a container equal to that stripped
path, and otherwise exactly one job: the leaf of that split in its container
(opened as `.` when the split returns the empty container).  So no job targets
a parent of the leaf, and the list never has more than one job. -/
theorem decompose_firstOnly (split : String → Except Error (String × String))
    (fuel : Nat) (path : String) :
    decompose split true (fuel + 1) path [] =
      some (match split (stripPadding path) with
        | .error _ => []
        | .ok (dstRemote, file) =>
          if dstRemote = stripPadding path then []
          else [⟨if dstRemote = "" then "." else dstRemote, file⟩]) ∧
    ∀ jobs, decompose split true (fuel + 1) path [] = some jobs → jobs.length ≤ 1 := by
  have h : decompose split true (fuel + 1) path [] =
      some (match split (stripPadding path) with
        | .error _ => []
        | .ok (dstRemote, file) =>
          if dstRemote = stripPadding path then []
          else [⟨if dstRemote = "" then "." else dstRemote, file⟩]) := by
    cases hs : split (stripPadding path) with
    | error e => simp [decompose, hs]
    | ok r =>
      obtain ⟨c, l⟩ := r
      by_cases hc : c = stripPadding path <;> simp [decompose, hs, hc]
  refine ⟨h, ?_⟩
  intro jobs hj
  rw [h] at hj
  cases hj
  split
  · simp
  · split <;> simp

/-- C9, witness: with `FirstOnly` set, `remote:dir/f.txt` gives the one job for
`f.txt`, the bare name `a` gives the one job for `a` in `.`, and `remote:`
gives no job. -/
theorem decompose_firstOnly_witness :
    decompose fspathSplit true 1 "remote:dir/f.txt" [] = some [⟨"remote:dir/", "f.txt"⟩] ∧
    decompose fspathSplit true 1 "a" [] = some [⟨".", "a"⟩] ∧
    decompose fspathSplit true 1 "remote:" [] = some [] ∧
    ∀ jobs, decompose fspathSplit true 1 "remote:dir/f.txt" [] = some jobs → jobs.length ≤ 1 :=
  ⟨(decompose_firstOnly fspathSplit 0 "remote:dir/f.txt").1,
   (decompose_firstOnly fspathSplit 0 "a").1,
   (decompose_firstOnly fspathSplit 0 "remote:").1,
   (decompose_firstOnly fspathSplit 0 "remote:dir/f.txt").2⟩

/-- From the working path `.` the loop never ends: the split of `.` returns the
empty container, which differs from `.`, is then replaced by `.`, and becomes the
next working path. -/
theorem decompose_dot_diverges (fuel : Nat) (toTouch : List touchJob) :
    decompose fspathSplit false fuel "." toTouch = none := by
  induction fuel generalizing toTouch with
  | zero => rfl
  | succ n ih =>
    have h1 : stripPadding "." = "." := by decide
    have h2 : fspathSplit "." = .ok ("", ".") := rfl
    have h3 : ¬ (("" : String) = ".") := by decide
    simp only [decompose, h1, h2, h3, if_false, if_true]
    exact ih _

/-- C3 (the code departs from the claim): with `FirstOnly` unset the loop does
not end on the bare name `a`, nor on `.`: whatever the number of iterations
allowed, it is still running.  The first iteration on `a` appends the job for
`a` in `.` and goes on with the working path `.`, which is not shorter than `a`;
every later iteration appends the job for `.` in `.` and goes on with `.`. -/
theorem decompose_bare_name_diverges (fuel : Nat) :
    decompose fspathSplit false fuel "a" [] = none ∧
    decompose fspathSplit false fuel "." [] = none ∧
    decompose fspathSplit false (fuel + 1) "a" [] =
      decompose fspathSplit false fuel "." [⟨".", "a"⟩] ∧
    decompose fspathSplit false (fuel + 1) "." [] =
      decompose fspathSplit false fuel "." [⟨".", "."⟩] := by
  have h1 : stripPadding "a" = "a" := by decide
  have h2 : fspathSplit "a" = .ok ("", "a") := rfl
  have h3 : ¬ (("" : String) = "a") := by decide
  have h4 : stripPadding "." = "." := by decide
  have h5 : fspathSplit "." = .ok ("", ".") := rfl
  have h6 : ¬ (("" : String) = ".") := by decide
  have step : ∀ n, decompose fspathSplit false (n + 1) "a" [] =
      decompose fspathSplit false n "." [⟨".", "a"⟩] := by
    intro n
    simp [decompose, h1, h2, h3]
  refine ⟨?_, decompose_dot_diverges fuel [], step fuel, ?_⟩
  · cases fuel with
    | zero => rfl
    | succ n => rw [step n]; exact decompose_dot_diverges n _
  · simp [decompose, h4, h5, h6]


/-! ## The path splitter and the length of the walk -/

theorem dirPart_append_filePart (p : List Char) : dirPart p ++ filePart p = p := by
  unfold dirPart filePart
  rw [← List.reverse_append, List.takeWhile_append_dropWhile, List.reverse_reverse]

theorem filePart_no_slash (p : List Char) : '/' ∉ filePart p := by
  intro h
  unfold filePart at h
  rw [List.mem_reverse] at h
  have := List.mem_takeWhile_imp h
  simp at this

theorem dropWhile_head_false {α : Type} (f : α → Bool) (l : List α) (x : α) (xs : List α)
    (h : l.dropWhile f = x :: xs) : f x = false := by
  induction l with
  | nil => simp at h
  | cons a t ih =>
    rw [List.dropWhile_cons] at h
    by_cases ha : f a = true
    · rw [if_pos ha] at h
      exact ih h
    · rw [if_neg ha] at h
      cases h
      simpa using ha

theorem dirPart_shape (p : List Char) : dirPart p = [] ∨ ∃ d, dirPart p = d ++ ['/'] := by
  unfold dirPart
  cases h : p.reverse.dropWhile (fun c => c != '/') with
  | nil => left; rfl
  | cons x xs =>
    right
    have hx := dropWhile_head_false _ _ x xs h
    have hx2 : x = '/' := by simpa using hx
    exact ⟨xs.reverse, by simp [hx2]⟩

theorem takeWhile_append_stop {α : Type} (f : α → Bool) (run : List α) (x : α) (rest : List α)
    (hrun : ∀ a ∈ run, f a = true) (hx : f x = false) :
    (run ++ x :: rest).takeWhile f = run ∧ (run ++ x :: rest).dropWhile f = x :: rest := by
  induction run with
  | nil => simp [List.takeWhile_cons, List.dropWhile_cons, hx]
  | cons a t ih =>
    have ha : f a = true := hrun a (by simp)
    have := ih (fun b hb => hrun b (by simp [hb]))
    simp [List.takeWhile_cons, List.dropWhile_cons, ha, this.1, this.2]

theorem matchNameColon_sound (s run rest : List Char) (h : matchNameColon s = some (run, rest)) :
    s = run ++ ':' :: rest ∧ rest.all (fun x => x != '\n') = true := by
  unfold matchNameColon at h
  cases hd : s.dropWhile isNameChar with
  | nil => simp [hd] at h
  | cons c t =>
    simp only [hd] at h
    by_cases hc : c = ':' ∧ t.all (fun x => x != '\n') = true
    · rw [if_pos hc] at h
      simp only [Option.some.injEq, Prod.mk.injEq] at h
      obtain ⟨h1, h2⟩ := h
      subst h2
      refine ⟨?_, hc.2⟩
      have := List.takeWhile_append_dropWhile isNameChar s
      rw [hd, h1, hc.1] at this
      exact this.symm
    · rw [if_neg hc] at h
      simp at h

theorem urlMatcher_sound (s n rest : List Char) (h : urlMatcher s = some (n, rest)) :
    s = n ++ ':' :: rest ∧ rest.all (fun x => x != '\n') = true := by
  unfold urlMatcher at h
  cases s with
  | nil => simp at h
  | cons c t =>
    simp only at h
    by_cases hc : c = ':'
    · rw [if_pos hc] at h
      cases hm : matchNameColon t with
      | none =>
        simp only [hm] at h
        by_cases ha : t.all (fun x => x != '\n') = true
        · rw [if_pos ha] at h
          simp only [Option.some.injEq, Prod.mk.injEq] at h
          obtain ⟨h1, h2⟩ := h
          subst h1 h2
          exact ⟨by simp [hc], ha⟩
        · rw [if_neg ha] at h
          simp at h
      | some r =>
        obtain ⟨run, rest2⟩ := r
        simp only [hm, Option.some.injEq, Prod.mk.injEq] at h
        obtain ⟨h1, h2⟩ := h
        subst h1 h2
        obtain ⟨e1, e2⟩ := matchNameColon_sound t run rest2 hm
        exact ⟨by simp [hc, e1], e2⟩
    · rw [if_neg hc] at h
      exact matchNameColon_sound _ _ _ h

theorem isConfigChar_isNameChar (c : Char) (h : isConfigChar c = true) : isNameChar c = true := by
  unfold isNameChar
  unfold isConfigChar at h
  have h1 : c ≠ '\\' := by
    intro e; subst e; revert h; decide
  have h2 : c ≠ '/' := by
    intro e; subst e; revert h; decide
  have h3 : c ≠ ':' := by
    intro e; subst e; revert h; decide
  simp [h1, h2, h3]

theorem matchNameColon_complete (run rest : List Char)
    (hrun : ∀ a ∈ run, isNameChar a = true) (hrest : rest.all (fun x => x != '\n') = true) :
    matchNameColon (run ++ ':' :: rest) = some (run, rest) := by
  have hx : isNameChar ':' = false := by decide
  obtain ⟨e1, e2⟩ := takeWhile_append_stop isNameChar run ':' rest hrun hx
  unfold matchNameColon
  rw [e2]
  simp [e1, hrest]

/-- A valid config name followed by a colon is matched back as the remote
name, whatever follows the colon on the same line. -/
theorem urlMatcher_complete (n rest : List Char) (hn : validConfigName n = true)
    (hrest : rest.all (fun x => x != '\n') = true) :
    urlMatcher (n ++ ':' :: rest) = some (n, rest) := by
  cases n with
  | nil => simp [validConfigName] at hn
  | cons c t =>
    unfold validConfigName at hn
    simp only at hn
    by_cases hc : c = ':'
    · rw [if_pos hc] at hn
      simp only [Bool.and_eq_true, List.all_eq_true] at hn
      have hm := matchNameColon_complete t rest
        (fun a ha => isConfigChar_isNameChar a (hn.2 a ha)) hrest
      simp [urlMatcher, hc, hm]
    · rw [if_neg hc] at hn
      simp only [List.all_eq_true] at hn
      have hm := matchNameColon_complete (c :: t) rest
        (fun a ha => isConfigChar_isNameChar a (hn a ha)) hrest
      simp only [urlMatcher, List.cons_append, if_neg hc]
      simpa using hm


theorem string_eq_of_data (a b : String) (h : a.data = b.data) : a = b := by
  cases a; cases b; simp_all

/-- The two ways `fspath.Split` succeeds: on a path without remote name it is
`path.Split`; on a path with a valid remote name the parent is that name, the
colon and the directory part of what follows. -/
theorem fspathSplit_cases (q c l : String) (h : fspathSplit q = .ok (c, l)) :
    (urlMatcher q.data = none ∧ c.data = dirPart q.data ∧ l.data = filePart q.data) ∨
    (∃ n rest, urlMatcher q.data = some (n, rest) ∧ validConfigName n = true ∧
      c.data = n ++ ':' :: dirPart rest ∧ l.data = filePart rest) := by
  unfold fspathSplit fspathParse at h
  cases hm : urlMatcher q.data with
  | none =>
    left
    simp only [hm] at h
    simp only [ne_eq, not_true_eq_false, if_false, Except.ok.injEq, Prod.mk.injEq] at h
    obtain ⟨h1, h2⟩ := h
    subst h1 h2
    exact ⟨rfl, by simp [pathSplit], by simp [pathSplit]⟩
  | some r =>
    obtain ⟨n, rest⟩ := r
    right
    simp only [hm] at h
    by_cases hv : validConfigName n = true
    · rw [if_pos hv] at h
      have hn : n ≠ [] := by
        intro e; subst e; simp [validConfigName] at hv
      have hn2 : (String.mk n) ≠ "" := by
        intro e
        have := congrArg String.data e
        exact hn this
      simp only [hn2, ne_eq, not_false_eq_true, if_true, Except.ok.injEq, Prod.mk.injEq] at h
      obtain ⟨h1, h2⟩ := h
      subst h1 h2
      exact ⟨n, rest, rfl, hv, by simp [pathSplit], by simp [pathSplit]⟩
    · rw [if_neg hv] at h
      simp at h

theorem fspathSplit_concat (q c l : String) (h : fspathSplit q = .ok (c, l)) :
    c.data ++ l.data = q.data := by
  rcases fspathSplit_cases q c l h with ⟨_, hc, hl⟩ | ⟨n, rest, hm, _, hc, hl⟩
  · rw [hc, hl, dirPart_append_filePart]
  · have := (urlMatcher_sound _ _ _ hm).1
    rw [hc, hl, this]
    simp [dirPart_append_filePart]

theorem stripPadding_concat (p : String) (d : List Char) (h : p.data = d ++ ['/']) :
    stripPadding p = ⟨d⟩ := by
  simp [stripPadding, hasSlashSuffix, h]

theorem separators_stripPadding_le (p : String) : separators (stripPadding p) ≤ separators p := by
  unfold stripPadding separators
  split
  · exact (List.dropLast_sublist p.data).count_le '/'
  · exact Nat.le_refl _

/-- What one successful split that is not a fixed point returns: a parent
strictly shorter than the path, which is empty (only for a path without remote
name), or ends in a separator that the next iteration strips, or is a bare
remote name with its colon, on which the next split is a fixed point. -/
theorem fspathSplit_step (q c l : String) (h : fspathSplit q = .ok (c, l)) (hne : c ≠ q) :
    c.data.length < q.data.length ∧
    ((c = "" ∧ hasRemoteName q = false) ∨
     (∃ d, c.data = d ++ ['/'] ∧ d.count '/' + 1 ≤ q.data.count '/') ∨
     (c ≠ "" ∧ stripPadding c = c ∧ fspathSplit c = .ok (c, ""))) := by
  have hcat := fspathSplit_concat q c l h
  have hl : l.data ≠ [] := by
    intro e
    rw [e, List.append_nil] at hcat
    exact hne (string_eq_of_data _ _ hcat)
  have hlen : c.data.length < q.data.length := by
    rw [← hcat, List.length_append]
    have : 0 < l.data.length := List.length_pos.mpr hl
    omega
  have hcount : c.data.count '/' ≤ q.data.count '/' := by
    rw [← hcat, List.count_append]
    omega
  refine ⟨hlen, ?_⟩
  rcases fspathSplit_cases q c l h with ⟨hm, hc, _⟩ | ⟨n, rest, hm, hv, hc, _⟩
  · rcases dirPart_shape q.data with hd | ⟨d, hd⟩
    · left
      refine ⟨string_eq_of_data _ _ (by rw [hc, hd]), ?_⟩
      simp [hasRemoteName, hm]
    · right; left
      refine ⟨d, by rw [hc, hd], ?_⟩
      have : c.data.count '/' = d.count '/' + 1 := by
        rw [hc, hd]; simp
      omega
  · rcases dirPart_shape rest with hd | ⟨d, hd⟩
    · right; right
      have hcd : c.data = n ++ [':'] := by rw [hc, hd]
      have hc0 : c ≠ "" := by
        intro e
        have := congrArg String.data e
        rw [hcd] at this
        simp at this
      have hstrip : stripPadding c = c := by
        have : hasSlashSuffix c = false := by
          simp [hasSlashSuffix, hcd]
        simp [stripPadding, this]
      refine ⟨hc0, hstrip, ?_⟩
      have hm2 : urlMatcher c.data = some (n, []) := by
        rw [hcd]
        exact urlMatcher_complete n [] hv (by simp)
      have hn2 : (String.mk n) ≠ "" := by
        intro e
        have := congrArg String.data e
        simp at this
        subst this
        simp [validConfigName] at hv
      have : fspathSplit c = .ok (String.mk n ++ ":" ++ (pathSplit (String.mk [])).1,
          (pathSplit (String.mk [])).2) := by
        simp [fspathSplit, fspathParse, hm2, hv, hn2]
      rw [this]
      congr 1
      refine Prod.ext ?_ ?_
      · exact string_eq_of_data _ _ (by simp [pathSplit, dirPart, hcd])
      · exact string_eq_of_data _ _ (by simp [pathSplit, filePart])
    · right; left
      refine ⟨n ++ ':' :: d, by rw [hc, hd]; simp, ?_⟩
      have : c.data.count '/' = (n ++ ':' :: d).count '/' + 1 := by
        rw [hc, hd]; simp [List.count_append]; omega
      omega


/-- The job count of a walk that ends: at most one job more than the number of
separators left after the first strip, counting the jobs already queued. -/
theorem decompose_length_le (fuel : Nat) :
    ∀ (path : String) (toTouch jobs : List touchJob),
      decompose fspathSplit false fuel path toTouch = some jobs →
      jobs.length ≤ toTouch.length + separators (stripPadding path) + 1 := by
  induction fuel with
  | zero => intro path toTouch jobs h; simp [decompose] at h
  | succ k ih =>
    intro path toTouch jobs h
    unfold decompose at h
    simp only at h
    cases hs : fspathSplit (stripPadding path) with
    | error e =>
      simp only [hs, Option.some.injEq] at h
      subst h; omega
    | ok r =>
      obtain ⟨c, l⟩ := r
      simp only [hs] at h
      by_cases hc : c = stripPadding path
      · simp only [hc, if_true, Option.some.injEq] at h
        subst h; omega
      · simp only [hc, if_false, Bool.false_eq_true] at h
        obtain ⟨_, hstep⟩ := fspathSplit_step _ c l hs hc
        rcases hstep with ⟨hc0, _⟩ | ⟨d, hd, hcount⟩ | ⟨hc0, hstrip, hfix⟩
        · subst hc0
          simp only [if_true] at h
          rw [decompose_dot_diverges] at h
          simp at h
        · have hc0 : c ≠ "" := by
            intro e
            have := congrArg String.data e
            rw [hd] at this
            simp at this
          simp only [hc0, if_false] at h
          have := ih c _ jobs h
          rw [stripPadding_concat c d hd] at this
          simp only [List.length_append, List.length_singleton] at this
          unfold separators at this ⊢
          simp only at this
          omega
        · simp only [hc0, if_false] at h
          cases k with
          | zero => simp [decompose] at h
          | succ m =>
            unfold decompose at h
            simp only [hstrip, hfix, if_true, Option.some.injEq] at h
            subst h
            simp

theorem hasRemoteName_stripPadding (p : String) (h : hasRemoteName p = true) :
    hasRemoteName (stripPadding p) = true := by
  unfold stripPadding
  split
  · rename_i hs
    unfold hasRemoteName at h
    cases hm : urlMatcher p.data with
    | none => simp [hm] at h
    | some r =>
      obtain ⟨n, rest⟩ := r
      simp only [hm] at h
      obtain ⟨e1, e2⟩ := urlMatcher_sound _ _ _ hm
      have hrest : rest ≠ [] := by
        intro e
        subst e
        simp [hasSlashSuffix, e1] at hs
      have hdrop : p.data.dropLast = n ++ ':' :: rest.dropLast := by
        rw [e1, List.dropLast_append_of_ne_nil _ (by simp), List.dropLast_cons_of_ne_nil hrest]
      have hall : rest.dropLast.all (fun x => x != '\n') = true := by
        rw [List.all_eq_true] at e2 ⊢
        intro x hx
        exact e2 x (List.dropLast_subset rest hx)
      have := urlMatcher_complete n rest.dropLast h hall
      simp only [hasRemoteName, hdrop, this, h]
  · exact h

/-- On a path with a remote name the split succeeds, and its parent keeps the
remote name: it is never empty. -/
theorem fspathSplit_hasRemoteName (q : String) (h : hasRemoteName q = true) :
    ∃ c l, fspathSplit q = .ok (c, l) ∧ c ≠ "" ∧ hasRemoteName c = true := by
  unfold hasRemoteName at h
  cases hm : urlMatcher q.data with
  | none => simp [hm] at h
  | some r =>
    obtain ⟨n, rest⟩ := r
    simp only [hm] at h
    have hn2 : (String.mk n) ≠ "" := by
      intro e
      have := congrArg String.data e
      simp at this
      subst this
      simp [validConfigName] at h
    have hs : fspathSplit q = .ok (String.mk n ++ ":" ++ (pathSplit (String.mk rest)).1,
        (pathSplit (String.mk rest)).2) := by
      simp [fspathSplit, fspathParse, hm, h, hn2]
    refine ⟨_, _, hs, ?_, ?_⟩
    · intro e
      have := congrArg String.data e
      simp at this
    · have e2 := (urlMatcher_sound _ _ _ hm).2
      have hall : (dirPart rest).all (fun x => x != '\n') = true := by
        rw [← dirPart_append_filePart rest, List.all_append, Bool.and_eq_true] at e2
        exact e2.1
      have hd : (String.mk n ++ ":" ++ (pathSplit (String.mk rest)).1).data
          = n ++ ':' :: dirPart rest := by
        simp [pathSplit]
      have := urlMatcher_complete n (dirPart rest) h hall
      simp only [hasRemoteName, hd, this, h]

/-- On a path with a remote name the walk ends within one iteration more than
the path has characters. -/
theorem decompose_terminates (fuel : Nat) :
    ∀ (path : String) (toTouch : List touchJob),
      hasRemoteName path = true → path.data.length < fuel →
      ∃ jobs, decompose fspathSplit false fuel path toTouch = some jobs := by
  induction fuel with
  | zero => intro path toTouch _ hl; omega
  | succ k ih =>
    intro path toTouch hr hl
    have hq := hasRemoteName_stripPadding path hr
    obtain ⟨c, l, hs, hc0, hrc⟩ := fspathSplit_hasRemoteName _ hq
    have hqlen : (stripPadding path).data.length ≤ path.data.length := by
      unfold stripPadding
      split
      · simp
      · exact Nat.le_refl _
    unfold decompose
    simp only [hs]
    by_cases hc : c = stripPadding path
    · exact ⟨toTouch, by simp [hc]⟩
    · have hlt := (fspathSplit_step _ c l hs hc).1
      simp only [hc, hc0, if_false, Bool.false_eq_true]
      exact ih c _ hrc (by omega)


/-- C10 (as amended): with `FirstOnly` unset, a walk that ends on a path with
`k` separators has queued at most `k + 1` jobs; and on every path that carries
a remote name the walk does end, within one iteration more than the path has
characters, with at most `k + 1` jobs. -/
theorem decompose_job_count (path : String) :
    (∀ fuel jobs, decompose fspathSplit false fuel path [] = some jobs →
      jobs.length ≤ separators path + 1) ∧
    (hasRemoteName path = true →
      ∃ jobs, decompose fspathSplit false (path.length + 1) path [] = some jobs ∧
        jobs.length ≤ separators path + 1) := by
  have bound : ∀ fuel jobs, decompose fspathSplit false fuel path [] = some jobs →
      jobs.length ≤ separators path + 1 := by
    intro fuel jobs h
    have h1 := decompose_length_le fuel path [] jobs h
    have h2 := separators_stripPadding_le path
    simp only [List.length_nil] at h1
    omega
  refine ⟨bound, ?_⟩
  intro hr
  obtain ⟨jobs, hj⟩ := decompose_terminates (path.length + 1) path [] hr
    (Nat.lt_succ_self path.data.length)
  exact ⟨jobs, hj, bound _ jobs hj⟩

/-- C10, witness of the amended statement: `remote:a/b/c.txt` has two
separators and a remote name; its walk ends with three jobs. -/
theorem decompose_job_count_witness :
    decompose fspathSplit false 4 "remote:a/b/c.txt" []
      = some [⟨"remote:a/b/", "c.txt"⟩, ⟨"remote:a/", "b"⟩, ⟨"remote:", "a"⟩] ∧
    (3 : Nat) ≤ separators "remote:a/b/c.txt" + 1 ∧
    ∃ jobs, decompose fspathSplit false ("remote:a/b/c.txt".length + 1) "remote:a/b/c.txt" []
        = some jobs ∧ jobs.length ≤ separators "remote:a/b/c.txt" + 1 :=
  ⟨rfl,
   (decompose_job_count "remote:a/b/c.txt").1 4
      [⟨"remote:a/b/", "c.txt"⟩, ⟨"remote:a/", "b"⟩, ⟨"remote:", "a"⟩] rfl,
   (decompose_job_count "remote:a/b/c.txt").2 (by decide)⟩

/-- C10 (the claim fails as stated): `remote:a/b/c.txt` has two separators, and
with `FirstOnly` unset its walk ends with three jobs, one more than the claim
allows. -/
theorem decompose_three_jobs_two_separators :
    separators "remote:a/b/c.txt" = 2 ∧
    decompose fspathSplit false 4 "remote:a/b/c.txt" []
      = some [⟨"remote:a/b/", "c.txt"⟩, ⟨"remote:a/", "b"⟩, ⟨"remote:", "a"⟩] ∧
    ¬ (∀ jobs, decompose fspathSplit false 4 "remote:a/b/c.txt" [] = some jobs →
        jobs.length ≤ separators "remote:a/b/c.txt") := by
  refine ⟨by decide, rfl, ?_⟩
  intro h
  have := h _ rfl
  exact absurd this (by decide)


/-! ## The job loop -/

/-- C11 (as amended): one pass of the job loop runs the jobs in list order and
stops at the first error.  On the empty list it returns success and leaves the
world as it is.  When the jobs of `pre` have all succeeded, leaving the world
`w1`, and `Touch` on the next job `j` returns the error `e` and the world `w2`,
the pass over `pre`, `j` and any later jobs `post` returns `e` and leaves `w2`:
what the earlier jobs did is kept and nothing is done for the jobs of `post`.
When `Touch` on `j` succeeds instead, the pass over `pre` and `j` succeeds and
leaves the world `Touch` left.  The run is `cmd.Run` with retries over that
pass: with no try left it ends with the error of the last pass; a pass that
succeeds ends the run with success; a pass that fails with an error that is
not retried ends the run with that error; a pass that fails with an error
that is retried is followed, on the world it left, by the run with one try
fewer, which starts again from the first job; and a run with at least one try
ends as one of its passes ends. -/
theorem runJobs_first_error {σ : Type} (flags : Flags) (env : Env) (b : Backend σ) :
    (∀ w : World σ, runJobs flags env b [] w = (none, w)) ∧
    (∀ (pre post : List touchJob) (j : touchJob) (w w1 w2 : World σ) (e : Error),
      runJobs flags env b pre w = (none, w1) →
      Touch flags env b j.fs j.fileName w1 = (some e, w2) →
      runJobs flags env b (pre ++ j :: post) w = (some e, w2)) ∧
    (∀ (pre : List touchJob) (j : touchJob) (w w1 w2 : World σ),
      runJobs flags env b pre w = (none, w1) →
      Touch flags env b j.fs j.fileName w1 = (none, w2) →
      runJobs flags env b (pre ++ [j]) w = (none, w2)) ∧
    (∀ (jobs : List touchJob) (cmdErr : Option Error) (w : World σ),
      cmdRun env.retryable (runJobs flags env b jobs) 0 cmdErr w = (cmdErr, w)) ∧
    (∀ (jobs : List touchJob) (tries : Nat) (cmdErr : Option Error) (w w1 : World σ),
      runJobs flags env b jobs w = (none, w1) →
      cmdRun env.retryable (runJobs flags env b jobs) (tries + 1) cmdErr w = (none, w1)) ∧
    (∀ (jobs : List touchJob) (tries : Nat) (cmdErr : Option Error) (w w1 : World σ)
      (e : Error),
      runJobs flags env b jobs w = (some e, w1) → env.retryable e = false →
      cmdRun env.retryable (runJobs flags env b jobs) (tries + 1) cmdErr w = (some e, w1)) ∧
    (∀ (jobs : List touchJob) (tries : Nat) (cmdErr : Option Error) (w w1 : World σ)
      (e : Error),
      runJobs flags env b jobs w = (some e, w1) → env.retryable e = true →
      cmdRun env.retryable (runJobs flags env b jobs) (tries + 1) cmdErr w =
        cmdRun env.retryable (runJobs flags env b jobs) tries (some e) w1) ∧
    (∀ (jobs : List touchJob) (w : World σ), 0 < env.retries →
      ∃ w0, runWithRetries flags env b jobs w = runJobs flags env b jobs w0) := by
  refine ⟨fun w => rfl, ?_, ?_, ?_, ?_, ?_, ?_, ?_⟩
  · intro pre post j w w1 w2 e hpre hT
    rw [runJobs_append flags env b pre (j :: post) w (by rw [hpre]), hpre]
    simp [runJobs, hT]
  · intro pre j w w1 w2 hpre hT
    rw [runJobs_append flags env b pre [j] w (by rw [hpre]), hpre]
    simp [runJobs, hT]
  · intro jobs cmdErr w
    rfl
  · intro jobs tries cmdErr w w1 hf
    simp [cmdRun, hf]
  · intro jobs tries cmdErr w w1 e hf hre
    simp [cmdRun, hf, hre]
  · intro jobs tries cmdErr w w1 e hf hre
    simp [cmdRun, hf, hre]
  · intro jobs w hpos
    obtain ⟨n, hn⟩ : ∃ n, env.retries = n + 1 := ⟨env.retries - 1, by omega⟩
    unfold runWithRetries
    rw [hn]
    exact cmdRun_last_pass env.retryable (runJobs flags env b jobs) n none w

/-- C11, witness of the amended statement: three jobs on a store that refuses
every update, where the first job fails and the pass makes no call for the two
later jobs; two jobs on the reference store, which succeed in order; and the
run over the jobs of `remote:dir/f.txt` on a store with one transient fault,
whose first pass fails with an error that is retried and is followed by the
run with two tries left. -/
theorem runJobs_first_error_witness :
    runJobs ⟨false, "", false, false⟩ sampleEnv refusingBackend
        ([] ++ ⟨"remote:a/b/", "c.txt"⟩ :: [⟨"remote:a/", "b"⟩, ⟨"remote:", "a"⟩]) (World.init ())
      = (some (Error.wrap (Error.other "permission denied") "touch: couldn't set mod time"),
         ⟨(), 1, [Call.newObject "remote:a/b/" "c.txt",
                  Call.setModTime ⟨"remote:a/b/", "c.txt"⟩ 1000]⟩) ∧
    runJobs ⟨true, "", false, false⟩ sampleEnv memBackend
        ([⟨"remote:dir/", "f.txt"⟩] ++ [⟨"remote:", "dir"⟩])
        (World.init [⟨"remote:", "dir", true, 0, 5⟩, ⟨"remote:dir/", "f.txt", false, 3, 7⟩])
      = (none,
         ⟨[⟨"remote:", "dir", true, 0, 1001⟩, ⟨"remote:dir/", "f.txt", false, 3, 1000⟩], 2,
          [Call.newObject "remote:dir/" "f.txt", Call.setModTime ⟨"remote:dir/", "f.txt"⟩ 1000,
           Call.newObject "remote:" "dir", Call.setModTime ⟨"remote:", "dir"⟩ 1001]⟩) ∧
    cmdRun sampleEnv.retryable
        (runJobs ⟨false, "", false, false⟩ sampleEnv flakyBackend
          [⟨"remote:dir/", "f.txt"⟩, ⟨"remote:", "dir"⟩]) (2 + 1) none (World.init 1)
      = cmdRun sampleEnv.retryable
        (runJobs ⟨false, "", false, false⟩ sampleEnv flakyBackend
          [⟨"remote:dir/", "f.txt"⟩, ⟨"remote:", "dir"⟩]) 2
        (some (Error.wrap (Error.other "temporary failure") "touch: couldn't set mod time"))
        ⟨0, 1, [Call.newObject "remote:dir/" "f.txt",
                Call.setModTime ⟨"remote:dir/", "f.txt"⟩ 1000]⟩ :=
  ⟨(runJobs_first_error ⟨false, "", false, false⟩ sampleEnv refusingBackend).2.1
      [] [⟨"remote:a/", "b"⟩, ⟨"remote:", "a"⟩] ⟨"remote:a/b/", "c.txt"⟩
      (World.init ()) (World.init ()) _ _ rfl rfl,
   (runJobs_first_error ⟨true, "", false, false⟩ sampleEnv memBackend).2.2.1
      [⟨"remote:dir/", "f.txt"⟩] ⟨"remote:", "dir"⟩
      (World.init [⟨"remote:", "dir", true, 0, 5⟩, ⟨"remote:dir/", "f.txt", false, 3, 7⟩])
      _ _ rfl rfl,
   (runJobs_first_error ⟨false, "", false, false⟩ sampleEnv flakyBackend).2.2.2.2.2.2.1
      [⟨"remote:dir/", "f.txt"⟩, ⟨"remote:", "dir"⟩] 2 none (World.init 1) _ _ rfl rfl⟩

/-- C11 (the claim fails as stated): the jobs of `remote:dir/f.txt` on a store
with one transient fault, three tries.  `Touch` on the first job returns an
error, yet the run does not end with that error: `cmd.Run` runs the whole job
list again, the first job is repeated, the later job then makes its storage
calls, and the run reports success. -/
theorem run_retries_after_first_error :
    Touch ⟨false, "", false, false⟩ sampleEnv flakyBackend "remote:dir/" "f.txt" (World.init 1)
      = (some (Error.wrap (Error.other "temporary failure") "touch: couldn't set mod time"),
         ⟨0, 1, [Call.newObject "remote:dir/" "f.txt",
                 Call.setModTime ⟨"remote:dir/", "f.txt"⟩ 1000]⟩) ∧
    commandRun ⟨false, "", false, false⟩ sampleEnv flakyBackend fspathSplit 4 "remote:dir/f.txt"
        (World.init 1)
      = some (none,
          ⟨0, 3, [Call.newObject "remote:dir/" "f.txt",
                  Call.setModTime ⟨"remote:dir/", "f.txt"⟩ 1000,
                  Call.newObject "remote:dir/" "f.txt",
                  Call.setModTime ⟨"remote:dir/", "f.txt"⟩ 1001,
                  Call.newObject "remote:" "dir",
                  Call.setModTime ⟨"remote:", "dir"⟩ 1002]⟩) := by
  constructor <;> rfl

/-- The only way a queued container can equal the working path it was split
from, for every splitter: the split returned the empty container on the
working path `.`, and the empty container was replaced by `.` after the
fixed-point test. -/
theorem bound_container_eq_working_path
    (split : String → Except Error (String × String)) (q c l : String)
    (_hs : split q = .ok (c, l)) (hne : c ≠ q) (heq : (if c = "" then "." else c) = q) :
    c = "" ∧ q = "." := by
  by_cases hc : c = ""
  · rw [if_pos hc] at heq
    exact ⟨hc, heq.symm⟩
  · rw [if_neg hc] at heq
    exact absurd heq hne

/-- C12 (the code departs from the claim): on the path `.` with `FirstOnly` set
the working path is `.`, its split returns the empty container and the leaf
`.`, the fixed-point test compares the empty container with `.` and passes, and
the job queued binds the container `.`, equal to the working path that was
split. -/
theorem decompose_dot_job_on_itself :
    stripPadding "." = "." ∧
    fspathSplit "." = .ok ("", ".") ∧
    decompose fspathSplit true 1 "." [] = some [⟨".", "."⟩] := by
  refine ⟨by decide, rfl, rfl⟩

/-- C16: the override is non-empty and does not parse under the layout chosen
by its length.  `Touch` returns the parse error wrapped with the malformed
date/time argument tag; it has read the clock once and made no storage call,
and the store is the one it was given. -/
theorem touch_malformed_timestamp {σ : Type} (flags : Flags) (env : Env) (b : Backend σ)
    (fsrc srcFileName : String) (w : World σ) (perr : Error)
    (h : flags.timeAsArgument ≠ "") (hp : parseOverride flags env = .error perr) :
    Touch flags env b fsrc srcFileName w =
      (some (Error.wrap perr "failed to parse date/time argument"),
       ⟨w.store, w.ticks + 1, w.calls⟩) := by
  simp [Touch, resolveTime_error flags env _ perr h hp]

/-- C16, witness: the override `not-a-date`. -/
theorem touch_malformed_timestamp_witness :
    Touch ⟨false, "not-a-date", false, false⟩ sampleEnv memBackend "remote:dir/" "f.txt"
        (World.init [⟨"remote:dir/", "f.txt", false, 3, 7⟩])
      = (some (Error.wrap (Error.other "parsing time: cannot parse value")
            "failed to parse date/time argument"),
         ⟨[⟨"remote:dir/", "f.txt", false, 3, 7⟩], 1, []⟩) :=
  touch_malformed_timestamp ⟨false, "not-a-date", false, false⟩ sampleEnv memBackend
    "remote:dir/" "f.txt" (World.init [⟨"remote:dir/", "f.txt", false, 3, 7⟩])
    (Error.other "parsing time: cannot parse value") (by decide) rfl

/-- C17: the timestamp resolves to `timeAtr` and the lookup fails with an error
`e`, whatever it is.  With creation enabled `Touch` makes one create call for a
zero-length object named `srcFileName` and returns what that call returns.
With creation disabled, when `e` is not the not-a-file error or no handle came
back, `Touch` returns success after the lookup alone and leaves the store as it
was.  In neither case is `e` handed to the caller. -/
theorem touch_lookup_error_swallowed {σ : Type} (flags : Flags) (env : Env) (b : Backend σ)
    (fsrc srcFileName : String) (w : World σ) (timeAtr : Time) (file : Option Object)
    (e : Error)
    (ht : resolveTime flags env (env.now w.ticks) = .ok timeAtr)
    (hl : b.NewObject w.store fsrc srcFileName = .failed file e) :
    (flags.notCreateNewFile = false →
      Touch flags env b fsrc srcFileName w =
        ((b.Put w.store fsrc [] ⟨srcFileName, timeAtr, 0, true, fsrc⟩).1,
         ⟨(b.Put w.store fsrc [] ⟨srcFileName, timeAtr, 0, true, fsrc⟩).2, w.ticks + 1,
          w.calls ++ [Call.newObject fsrc srcFileName,
                      Call.put fsrc [] ⟨srcFileName, timeAtr, 0, true, fsrc⟩]⟩)) ∧
    (flags.notCreateNewFile = true → (e ≠ Error.notAFile ∨ file = none) →
      Touch flags env b fsrc srcFileName w =
        (none, ⟨w.store, w.ticks + 1, w.calls ++ [Call.newObject fsrc srcFileName]⟩)) := by
  constructor
  · intro hflag
    simp only [Touch, ht, hl, hflag]
    cases hput : (b.Put w.store fsrc [] ⟨srcFileName, timeAtr, 0, true, fsrc⟩).1 <;>
      simp [touchFolder, hput]
  · intro hflag hcase
    simp only [Touch, ht, hl, hflag]
    rcases hcase with hne | hnone
    · cases e <;> first | exact absurd rfl hne | simp [touchFolder]
    · subst hnone
      cases e <;> simp [touchFolder]

/-- C17, witness: a lookup that fails with a permission error, once with
creation enabled and once with creation disabled. -/
theorem touch_lookup_error_swallowed_witness :
    Touch ⟨false, "", false, false⟩ sampleEnv unlistableBackend "remote:dir/" "f.txt"
        (World.init ())
      = (none, ⟨(), 1, [Call.newObject "remote:dir/" "f.txt",
                        Call.put "remote:dir/" [] ⟨"f.txt", 1000, 0, true, "remote:dir/"⟩]⟩) ∧
    Touch ⟨true, "", false, false⟩ sampleEnv unlistableBackend "remote:dir/" "f.txt"
        (World.init ())
      = (none, ⟨(), 1, [Call.newObject "remote:dir/" "f.txt"]⟩) :=
  ⟨(touch_lookup_error_swallowed ⟨false, "", false, false⟩ sampleEnv unlistableBackend
      "remote:dir/" "f.txt" (World.init ()) 1000 none (Error.other "permission denied")
      rfl rfl).1 rfl,
   (touch_lookup_error_swallowed ⟨true, "", false, false⟩ sampleEnv unlistableBackend
      "remote:dir/" "f.txt" (World.init ()) 1000 none (Error.other "permission denied")
      rfl rfl).2 rfl (Or.inl (by decide))⟩


/-! ## Paths that end in separators -/

theorem dirPart_slash_end (d : List Char) :
    dirPart (d ++ ['/']) = d ++ ['/'] ∧ filePart (d ++ ['/']) = [] := by
  simp [dirPart, filePart, List.dropWhile_cons, List.takeWhile_cons]

/-- On a path that ends in a separator a split that succeeds is a fixed point:
the parent is the whole path and the leaf is empty. -/
theorem fspathSplit_slash_end (q c l : String) (d : List Char) (hq : q.data = d ++ ['/'])
    (h : fspathSplit q = .ok (c, l)) : c = q ∧ l = "" := by
  rcases fspathSplit_cases q c l h with ⟨_, hc, hl⟩ | ⟨n, rest, hm, _, hc, hl⟩
  · rw [hq] at hc hl
    rw [(dirPart_slash_end d).1] at hc
    rw [(dirPart_slash_end d).2] at hl
    exact ⟨string_eq_of_data _ _ (by rw [hc, hq]), string_eq_of_data _ _ (by rw [hl])⟩
  · have e1 := (urlMatcher_sound _ _ _ hm).1
    have hlast : rest.getLast? = some '/' := by
      have h1 : q.data.getLast? = some '/' := by rw [hq]; simp
      rw [e1] at h1
      cases rest with
      | nil => simp at h1
      | cons x xs => simpa [List.getLast?_append] using h1
    have hrest : rest = rest.dropLast ++ ['/'] :=
      (List.dropLast_append_getLast? '/' (by simp [hlast])).symm
    rw [hrest, (dirPart_slash_end _).1, ← hrest] at hc
    rw [hrest, (dirPart_slash_end _).2] at hl
    exact ⟨string_eq_of_data _ _ (by rw [hc, e1]), string_eq_of_data _ _ (by rw [hl])⟩

/-- C18 (as amended): on a path that ends in two separators, whatever comes
before them and whatever `FirstOnly` is, one strip leaves a path that still ends
in a separator; its split either fails or returns that path itself with an
empty leaf; the loop stops in its first iteration with no job; and the run
reports success and leaves the world, hence the store and the call log, as it
was. -/
theorem decompose_double_slash (p : String) (firstOnly : Bool) (fuel : Nat) :
    stripPadding (p ++ "//") = p ++ "/" ∧
    hasSlashSuffix (p ++ "/") = true ∧
    ((∃ e, fspathSplit (p ++ "/") = .error e) ∨
      fspathSplit (p ++ "/") = .ok (p ++ "/", "")) ∧
    decompose fspathSplit firstOnly (fuel + 1) (p ++ "//") [] = some [] ∧
    ∀ {σ : Type} (noCreate localTime : Bool) (override : String) (env : Env) (b : Backend σ)
      (w : World σ),
      commandRun ⟨noCreate, override, localTime, firstOnly⟩ env b fspathSplit (fuel + 1)
        (p ++ "//") w = some (none, w) := by
  have hstrip : stripPadding (p ++ "//") = p ++ "/" := by
    have h1 : (p ++ "//").data = (p.data ++ ['/']) ++ ['/'] := by
      simp [String.data_append]
    rw [stripPadding_concat _ _ h1]
    exact string_eq_of_data _ _ (by simp [String.data_append])
  have hq : (p ++ "/").data = p.data ++ ['/'] := by simp [String.data_append]
  have hsplit : (∃ e, fspathSplit (p ++ "/") = .error e) ∨
      fspathSplit (p ++ "/") = .ok (p ++ "/", "") := by
    cases hs : fspathSplit (p ++ "/") with
    | error e => exact Or.inl ⟨e, rfl⟩
    | ok r =>
      obtain ⟨c, l⟩ := r
      obtain ⟨hc, hl⟩ := fspathSplit_slash_end _ c l p.data hq hs
      right
      rw [hc, hl]
  have hdec : decompose fspathSplit firstOnly (fuel + 1) (p ++ "//") [] = some [] := by
    unfold decompose
    simp only [hstrip]
    rcases hsplit with ⟨e, he⟩ | hok
    · simp [he]
    · simp [hok]
  refine ⟨hstrip, by simp [hasSlashSuffix, hq], hsplit, hdec, ?_⟩
  intro σ noCreate localTime override env b w
  simp [commandRun, hdec, runWithRetries_nil]

/-- C18, witness of the amended statement: `remote:dir//`, where the split is
the fixed point, and `re+mote:dir//`, where it fails. -/
theorem decompose_double_slash_witness :
    fspathSplit ("remote:dir" ++ "/") = .ok ("remote:dir" ++ "/", "") ∧
    decompose fspathSplit false 1 ("remote:dir" ++ "//") [] = some [] ∧
    decompose fspathSplit true 1 ("re+mote:dir" ++ "//") [] = some [] ∧
    commandRun ⟨false, "", false, false⟩ sampleEnv memBackend fspathSplit 1
        ("remote:dir" ++ "//") (World.init [⟨"remote:", "dir", true, 0, 5⟩])
      = some (none, World.init [⟨"remote:", "dir", true, 0, 5⟩]) :=
  ⟨rfl,
   (decompose_double_slash "remote:dir" false 0).2.2.2.1,
   (decompose_double_slash "re+mote:dir" true 0).2.2.2.1,
   (decompose_double_slash "remote:dir" false 0).2.2.2.2 false false "" sampleEnv memBackend
      (World.init [⟨"remote:", "dir", true, 0, 5⟩])⟩

/-- C18 (the claim fails as stated): `re+mote:dir//` ends in two separators, but
the split of `re+mote:dir/` does not return that path with an empty leaf: the
name before the colon holds a character no config name may hold and the split
fails.  The loop stops on the failure, again with no job. -/
theorem decompose_double_slash_split_fails :
    stripPadding "re+mote:dir//" = "re+mote:dir/" ∧
    fspathSplit "re+mote:dir/" = .error errInvalidCharacters ∧
    ¬ (fspathSplit "re+mote:dir/" = .ok ("re+mote:dir/", "")) ∧
    decompose fspathSplit false 1 "re+mote:dir//" [] = some [] := by
  refine ⟨by decide, rfl, ?_, rfl⟩
  intro h
  have h2 : fspathSplit "re+mote:dir/" = .error errInvalidCharacters := rfl
  rw [h2] at h
  cases h


/-! ## The order of the jobs -/

theorem fspathSplit_leaf_no_slash (q c l : String) (h : fspathSplit q = .ok (c, l)) :
    l.data.contains '/' = false := by
  have hn : '/' ∉ l.data := by
    rcases fspathSplit_cases q c l h with ⟨_, _, hl⟩ | ⟨n, rest, _, _, _, hl⟩
    · rw [hl]; exact filePart_no_slash _
    · rw [hl]; exact filePart_no_slash _
  simpa using hn

/-- The jobs a walk that ends has added to the queue are ordered leaf first,
each one targeting the container of the one before it. -/
theorem decompose_walkOrdered (fuel : Nat) :
    ∀ (path : String) (toTouch jobs : List touchJob),
      decompose fspathSplit false fuel path toTouch = some jobs →
      ∃ added, jobs = toTouch ++ added ∧ walkOrdered path added = true := by
  induction fuel with
  | zero => intro path toTouch jobs h; simp [decompose] at h
  | succ k ih =>
    intro path toTouch jobs h
    unfold decompose at h
    simp only at h
    cases hs : fspathSplit (stripPadding path) with
    | error e =>
      simp only [hs, Option.some.injEq] at h
      exact ⟨[], by simp [h], rfl⟩
    | ok r =>
      obtain ⟨c, l⟩ := r
      simp only [hs] at h
      by_cases hc : c = stripPadding path
      · simp only [hc, if_true, Option.some.injEq] at h
        exact ⟨[], by simp [h], rfl⟩
      · simp only [hc, if_false, Bool.false_eq_true] at h
        by_cases hc0 : c = ""
        · subst hc0
          simp only [if_true] at h
          rw [decompose_dot_diverges] at h
          simp at h
        · simp only [hc0, if_false] at h
          obtain ⟨added, hj, hord⟩ := ih c _ jobs h
          refine ⟨⟨c, l⟩ :: added, by simp [hj], ?_⟩
          have hcat : c ++ l = stripPadding path :=
            string_eq_of_data _ _ (by
              rw [String.data_append]; exact fspathSplit_concat _ c l hs)
          have hleaf := fspathSplit_leaf_no_slash _ c l hs
          simp only [walkOrdered, hcat, hleaf, hord, beq_self_eq_true, Bool.not_false,
            Bool.and_self]

/-- C13: with `FirstOnly` unset, the job list of a walk that ends is ordered leaf
first, ancestors outward: the first job's container joined with its leaf is the
input path with one trailing separator stripped, the leaf being its final
component, and every later job's container joined with its leaf is the
container of the job before it with its trailing separator stripped.  On every
path that carries a remote name the walk does end, with such a list. -/
theorem decompose_leaf_first (path : String) :
    (∀ fuel jobs, decompose fspathSplit false fuel path [] = some jobs →
      walkOrdered path jobs = true) ∧
    (hasRemoteName path = true →
      ∃ jobs, decompose fspathSplit false (path.length + 1) path [] = some jobs ∧
        walkOrdered path jobs = true) := by
  have ordered : ∀ fuel jobs, decompose fspathSplit false fuel path [] = some jobs →
      walkOrdered path jobs = true := by
    intro fuel jobs h
    obtain ⟨added, hj, hord⟩ := decompose_walkOrdered fuel path [] jobs h
    rw [hj]
    simpa using hord
  refine ⟨ordered, ?_⟩
  intro hr
  obtain ⟨jobs, hj⟩ := decompose_terminates (path.length + 1) path [] hr
    (Nat.lt_succ_self path.data.length)
  exact ⟨jobs, hj, ordered _ jobs hj⟩

/-- C13, witness: `remote:a/b/c.txt` yields, in order, `c.txt` in `remote:a/b/`,
`b` in `remote:a/` and `a` in `remote:`. -/
theorem decompose_leaf_first_witness :
    decompose fspathSplit false 4 "remote:a/b/c.txt" []
      = some [⟨"remote:a/b/", "c.txt"⟩, ⟨"remote:a/", "b"⟩, ⟨"remote:", "a"⟩] ∧
    walkOrdered "remote:a/b/c.txt"
      [⟨"remote:a/b/", "c.txt"⟩, ⟨"remote:a/", "b"⟩, ⟨"remote:", "a"⟩] = true ∧
    ∃ jobs, decompose fspathSplit false ("remote:a/b/c.txt".length + 1) "remote:a/b/c.txt" []
        = some jobs ∧ walkOrdered "remote:a/b/c.txt" jobs = true :=
  ⟨rfl,
   (decompose_leaf_first "remote:a/b/c.txt").1 4
      [⟨"remote:a/b/", "c.txt"⟩, ⟨"remote:a/", "b"⟩, ⟨"remote:", "a"⟩] rfl,
   (decompose_leaf_first "remote:a/b/c.txt").2 (by decide)⟩


/-! ## The footprint of one `Touch` call -/

/-- The four shapes of a `Touch` call: nothing but a clock reading (the override
did not parse); the lookup alone; the lookup and one create for the leaf name;
the lookup and one update of the object the lookup handed back. -/
theorem Touch_shape {σ : Type} (flags : Flags) (env : Env) (b : Backend σ)
    (fsrc srcFileName : String) (w : World σ) :
    ((Touch flags env b fsrc srcFileName w).2.calls = w.calls ∧
      (Touch flags env b fsrc srcFileName w).2.store = w.store) ∨
    ((Touch flags env b fsrc srcFileName w).2.calls = w.calls ++ [Call.newObject fsrc srcFileName] ∧
      (Touch flags env b fsrc srcFileName w).2.store = w.store) ∨
    (∃ t, (Touch flags env b fsrc srcFileName w).2.calls =
        w.calls ++ [Call.newObject fsrc srcFileName,
                    Call.put fsrc [] ⟨srcFileName, t, 0, true, fsrc⟩] ∧
      (Touch flags env b fsrc srcFileName w).2.store =
        (b.Put w.store fsrc [] ⟨srcFileName, t, 0, true, fsrc⟩).2) ∨
    (∃ file t, (b.NewObject w.store fsrc srcFileName).handle = some file ∧
      (Touch flags env b fsrc srcFileName w).2.calls =
        w.calls ++ [Call.newObject fsrc srcFileName, Call.setModTime file t] ∧
      (Touch flags env b fsrc srcFileName w).2.store = (b.SetModTime w.store file t).2) := by
  cases ht : resolveTime flags env (env.now w.ticks) with
  | error e => left; simp [Touch, ht]
  | ok timeAtr =>
    cases hl : b.NewObject w.store fsrc srcFileName with
    | found file =>
      right; right; right
      refine ⟨file, timeAtr, rfl, ?_⟩
      cases hs : (b.SetModTime w.store file timeAtr).1 <;> simp [Touch, ht, hl, hs]
    | failed file err =>
      cases hflag : flags.notCreateNewFile
      · right; right; left
        refine ⟨timeAtr, ?_⟩
        cases hp : (b.Put w.store fsrc [] ⟨srcFileName, timeAtr, 0, true, fsrc⟩).1 <;>
          simp [Touch, ht, hl, hflag, hp, touchFolder]
      · by_cases hcase : err = Error.notAFile ∧ ∃ f, file = some f
        · obtain ⟨he, f, hf⟩ := hcase
          subst he hf
          right; right; right
          refine ⟨f, timeAtr, rfl, ?_⟩
          cases hs : (b.SetModTime w.store f timeAtr).1 <;>
            simp [Touch, ht, hl, hflag, touchFolder, hs]
        · right; left
          cases err <;> cases file <;> simp_all [Touch, touchFolder]

theorem memNewObject_handle (s : List Entry) (fs name : String) (file : Object)
    (h : (memNewObject s fs name).handle = some file) : file = ⟨fs, name⟩ := by
  unfold memNewObject at h
  cases hf : memFind s fs name with
  | none => simp [hf, Lookup.handle] at h
  | some e =>
    simp only [hf] at h
    by_cases hd : e.isDir = true
    · simp [hd, Lookup.handle] at h
      exact h.symm
    · simp [hd, Lookup.handle] at h
      exact h.symm

theorem memPut_frame (s : List Entry) (fs : String) (content : List Nat)
    (src : StaticObjectInfo) :
    (memPut s fs content src).2.filter (fun e => !e.isAt fs src.remote)
      = s.filter (fun e => !e.isAt fs src.remote) := by
  simp only [memPut]
  rw [List.filter_cons_of_neg (by simp [Entry.isAt]), List.filter_filter]
  congr 1
  funext e
  cases e.isAt fs src.remote <;> simp

theorem memSetModTime_frame (s : List Entry) (fs name : String) (t : Time) :
    (memSetModTime s ⟨fs, name⟩ t).2.filter (fun e => !e.isAt fs name)
      = s.filter (fun e => !e.isAt fs name) := by
  unfold memSetModTime
  cases memFind s fs name with
  | none => rfl
  | some _ =>
    simp only
    induction s with
    | nil => rfl
    | cons a rest ih =>
      by_cases ha : a.isAt fs name = true
      · have ha2 : Entry.isAt { a with modTime := t } fs name = true := by
          simpa [Entry.isAt] using ha
        simp [List.filter_cons, ha, ha2, ih]
      · simp [List.filter_cons, ha, ih]

/-- C14: whatever the flags and the answers of the backend, the calls one
`Touch` call adds to the log hold at most one mutating call.  That call is
either a create in the given container for the name `srcFileName`, or a
set-modification-time on the object the lookup of `srcFileName` handed back.  In
the reference store every entry other than the one called `srcFileName` in the
container is left as it was. -/
theorem touch_single_mutation :
    (∀ {σ : Type} (flags : Flags) (env : Env) (b : Backend σ) (fsrc srcFileName : String)
      (w : World σ),
      (((Touch flags env b fsrc srcFileName w).2.calls.drop w.calls.length).filter
          Call.isMutation).length ≤ 1 ∧
      ∀ c ∈ (Touch flags env b fsrc srcFileName w).2.calls.drop w.calls.length,
        c.isMutation = true →
        (∃ t, c = Call.put fsrc [] ⟨srcFileName, t, 0, true, fsrc⟩) ∨
        (∃ file t, c = Call.setModTime file t ∧
          (b.NewObject w.store fsrc srcFileName).handle = some file)) ∧
    (∀ (flags : Flags) (env : Env) (fsrc srcFileName : String) (w : World (List Entry)),
      (Touch flags env memBackend fsrc srcFileName w).2.store.filter
          (fun e => !e.isAt fsrc srcFileName)
        = w.store.filter (fun e => !e.isAt fsrc srcFileName)) := by
  constructor
  · intro σ flags env b fsrc srcFileName w
    rcases Touch_shape flags env b fsrc srcFileName w with
      ⟨hc, _⟩ | ⟨hc, _⟩ | ⟨t, hc, _⟩ | ⟨file, t, hh, hc, _⟩
    · rw [hc]; simp
    · rw [hc]; simp [Call.isMutation]
    · rw [hc]
      simp only [List.drop_left]
      refine ⟨by simp [List.filter, Call.isMutation], ?_⟩
      intro c hcm hmut
      simp only [List.mem_cons, List.mem_singleton, List.mem_nil_iff, or_false] at hcm
      rcases hcm with rfl | rfl
      · simp [Call.isMutation] at hmut
      · exact Or.inl ⟨t, rfl⟩
    · rw [hc]
      simp only [List.drop_left]
      refine ⟨by simp [List.filter, Call.isMutation], ?_⟩
      intro c hcm hmut
      simp only [List.mem_cons, List.mem_singleton, List.mem_nil_iff, or_false] at hcm
      rcases hcm with rfl | rfl
      · simp [Call.isMutation] at hmut
      · exact Or.inr ⟨file, t, rfl, hh⟩
  · intro flags env fsrc srcFileName w
    rcases Touch_shape flags env memBackend fsrc srcFileName w with
      ⟨_, hs⟩ | ⟨_, hs⟩ | ⟨t, _, hs⟩ | ⟨file, t, hh, _, hs⟩
    · rw [hs]
    · rw [hs]
    · rw [hs]
      exact memPut_frame w.store fsrc [] ⟨srcFileName, t, 0, true, fsrc⟩
    · rw [hs]
      have hf := memNewObject_handle w.store fsrc srcFileName file hh
      subst hf
      exact memSetModTime_frame w.store fsrc srcFileName t


/-- C14, witness: a create on the reference store; the container entry `dir`
of another namespace is left alone. -/
theorem touch_single_mutation_witness :
    (((Touch ⟨false, "", false, false⟩ sampleEnv memBackend "remote:dir/" "new.txt"
        (World.init [⟨"remote:", "dir", true, 0, 5⟩])).2.calls.drop 0).filter
          Call.isMutation).length ≤ 1 ∧
    (Touch ⟨false, "", false, false⟩ sampleEnv memBackend "remote:dir/" "new.txt"
        (World.init [⟨"remote:", "dir", true, 0, 5⟩])).2.store.filter
          (fun e => !e.isAt "remote:dir/" "new.txt")
      = [⟨"remote:", "dir", true, 0, 5⟩] :=
  ⟨(touch_single_mutation.1 ⟨false, "", false, false⟩ sampleEnv memBackend "remote:dir/" "new.txt"
      (World.init [⟨"remote:", "dir", true, 0, 5⟩])).1,
   touch_single_mutation.2 ⟨false, "", false, false⟩ sampleEnv "remote:dir/" "new.txt"
      (World.init [⟨"remote:", "dir", true, 0, 5⟩])⟩

/-! ## Touching an existing object twice -/

theorem memFind_map_setTime (s : List Entry) (fs name : String) (t : Time) (e : Entry)
    (h : memFind s fs name = some e) :
    memFind (s.map (fun x => if x.isAt fs name then { x with modTime := t } else x)) fs name
      = some { e with modTime := t } := by
  induction s with
  | nil => simp [memFind] at h
  | cons a rest ih =>
    by_cases ha : a.isAt fs name = true
    · have ha2 : Entry.isAt { a with modTime := t } fs name = true := by
        simpa [Entry.isAt] using ha
      have hae : a = e := by simpa [memFind, List.find?_cons, ha] using h
      subst hae
      simp [memFind, List.find?_cons, ha, ha2]
    · have hrest : memFind rest fs name = some e := by
        simpa [memFind, List.find?_cons, ha] using h
      have := ih hrest
      simpa [memFind, List.find?_cons, ha] using this

/-- On the reference store, `Touch` on a name that is a plain object updates the
time of the entries of that name and does nothing else. -/
theorem Touch_mem_existing (flags : Flags) (env : Env) (fsrc srcFileName : String)
    (w : World (List Entry)) (timeAtr : Time) (e : Entry)
    (ht : resolveTime flags env (env.now w.ticks) = .ok timeAtr)
    (hf : memFind w.store fsrc srcFileName = some e) (hd : e.isDir = false) :
    Touch flags env memBackend fsrc srcFileName w =
      (none,
       ⟨w.store.map (fun x => if x.isAt fsrc srcFileName then { x with modTime := timeAtr } else x),
        w.ticks + 1,
        w.calls ++ [Call.newObject fsrc srcFileName,
                    Call.setModTime ⟨fsrc, srcFileName⟩ timeAtr]⟩) := by
  have hl : memBackend.NewObject w.store fsrc srcFileName = .found ⟨fsrc, srcFileName⟩ := by
    show memNewObject w.store fsrc srcFileName = _
    simp [memNewObject, hf, hd]
  have hs : memBackend.SetModTime w.store ⟨fsrc, srcFileName⟩ timeAtr =
      (none, w.store.map
        (fun x => if x.isAt fsrc srcFileName then { x with modTime := timeAtr } else x)) := by
    show memSetModTime w.store ⟨fsrc, srcFileName⟩ timeAtr = _
    simp [memSetModTime, hf]
  simp [Touch, ht, hl, hs]

/-- C15: in the reference store the name `srcFileName` is a plain object of
the container, and the override parses to `t`.  Two `Touch` calls in a row both
succeed; after the first and after the second the object has the modification
time `t`; the second call leaves the store exactly as the first left it; the
store holds as many entries as before; and the four calls made are two
lookups and two set-modification-time calls, with no create. -/
theorem touch_twice_existing (flags : Flags) (env : Env) (fsrc srcFileName : String)
    (w : World (List Entry)) (t : Time) (e : Entry)
    (h : flags.timeAsArgument ≠ "") (hp : parseOverride flags env = .ok t)
    (hf : memFind w.store fsrc srcFileName = some e) (hd : e.isDir = false) :
    (Touch flags env memBackend fsrc srcFileName w).1 = none ∧
    (Touch flags env memBackend fsrc srcFileName
      (Touch flags env memBackend fsrc srcFileName w).2).1 = none ∧
    memFind (Touch flags env memBackend fsrc srcFileName w).2.store fsrc srcFileName
      = some { e with modTime := t } ∧
    memFind (Touch flags env memBackend fsrc srcFileName
      (Touch flags env memBackend fsrc srcFileName w).2).2.store fsrc srcFileName
      = some { e with modTime := t } ∧
    (Touch flags env memBackend fsrc srcFileName
      (Touch flags env memBackend fsrc srcFileName w).2).2.store
      = (Touch flags env memBackend fsrc srcFileName w).2.store ∧
    (Touch flags env memBackend fsrc srcFileName w).2.store.length = w.store.length ∧
    (Touch flags env memBackend fsrc srcFileName
      (Touch flags env memBackend fsrc srcFileName w).2).2.calls
      = w.calls ++ [Call.newObject fsrc srcFileName, Call.setModTime ⟨fsrc, srcFileName⟩ t,
                    Call.newObject fsrc srcFileName, Call.setModTime ⟨fsrc, srcFileName⟩ t] := by
  have h1 := Touch_mem_existing flags env fsrc srcFileName w t e
    (resolveTime_ok flags env _ t h hp) hf hd
  have hf1 := memFind_map_setTime w.store fsrc srcFileName t e hf
  rw [h1]
  have h2 := Touch_mem_existing flags env fsrc srcFileName
    ⟨w.store.map (fun x => if x.isAt fsrc srcFileName then { x with modTime := t } else x),
     w.ticks + 1,
     w.calls ++ [Call.newObject fsrc srcFileName, Call.setModTime ⟨fsrc, srcFileName⟩ t]⟩
    t { e with modTime := t } (resolveTime_ok flags env _ t h hp) hf1 hd
  rw [h2]
  have hidem : (w.store.map
      (fun x => if x.isAt fsrc srcFileName then { x with modTime := t } else x)).map
      (fun x => if x.isAt fsrc srcFileName then { x with modTime := t } else x)
      = w.store.map (fun x => if x.isAt fsrc srcFileName then { x with modTime := t } else x) := by
    rw [List.map_map]
    congr 1
    funext x
    by_cases hx : x.isAt fsrc srcFileName = true
    · have hx2 : Entry.isAt { x with modTime := t } fsrc srcFileName = true := by
        simpa [Entry.isAt] using hx
      simp [hx, hx2]
    · simp [hx]
  refine ⟨rfl, rfl, hf1, ?_, hidem, by simp, by simp⟩
  simp only [hidem]
  exact hf1

/-- C15, witness: `f.txt` exists as a plain object and the override is
`230115`. -/
theorem touch_twice_existing_witness :
    (Touch ⟨false, "230115", false, false⟩ sampleEnv memBackend "remote:dir/" "f.txt"
      (Touch ⟨false, "230115", false, false⟩ sampleEnv memBackend "remote:dir/" "f.txt"
        (World.init [⟨"remote:dir/", "f.txt", false, 3, 7⟩])).2).2.store
      = (Touch ⟨false, "230115", false, false⟩ sampleEnv memBackend "remote:dir/" "f.txt"
          (World.init [⟨"remote:dir/", "f.txt", false, 3, 7⟩])).2.store ∧
    (Touch ⟨false, "230115", false, false⟩ sampleEnv memBackend "remote:dir/" "f.txt"
        (World.init [⟨"remote:dir/", "f.txt", false, 3, 7⟩])).2.store
      = [⟨"remote:dir/", "f.txt", false, 3, 230115⟩] :=
  ⟨(touch_twice_existing ⟨false, "230115", false, false⟩ sampleEnv "remote:dir/" "f.txt"
      (World.init [⟨"remote:dir/", "f.txt", false, 3, 7⟩]) 230115
      ⟨"remote:dir/", "f.txt", false, 3, 7⟩ (by decide) rfl rfl rfl).2.2.2.2.1,
   rfl⟩

end GdSuite
